import Mathlib

/-!
neoforge-server-pack: a shallow embedding of the command-line scripts.

The five scripts (`add_mod.js`, `modrinth_download.js`, `modrinth_pack.js`,
`server_mods.js`, `update_pack.js`) are embedded as pure functions.  JavaScript
strings are Lean strings; the registry, the file system and the child
processes are explicit oracles passed as arguments, and every effect a script
performs is recorded in a log that the embedded `main` returns.

Platform functions that the scripts call but do not define (`new URL`,
`JSON.parse`, `Date`, `path.*`) are either arguments of the embedding or small
models whose domain is stated next to them.
-/

namespace NeoforgePack

/-! ## JavaScript string primitives -/

/-- Characters removed by `String.prototype.trim`: the ECMAScript `WhiteSpace`
and `LineTerminator` code points. -/
def isJsWhitespace (c : Char) : Bool :=
  c.val = 0x09 || c.val = 0x0A || c.val = 0x0B || c.val = 0x0C || c.val = 0x0D ||
  c.val = 0x20 || c.val = 0xA0 || c.val = 0x1680 ||
  (0x2000 ≤ c.val && c.val ≤ 0x200A) ||
  c.val = 0x2028 || c.val = 0x2029 || c.val = 0x202F || c.val = 0x205F ||
  c.val = 0x3000 || c.val = 0xFEFF

/-- Drop trailing whitespace of a character list. -/
def dropTrailingWs : List Char → List Char
  | [] => []
  | c :: cs =>
    match dropTrailingWs cs with
    | [] => if isJsWhitespace c then [] else [c]
    | r => c :: r

/-- The JavaScript `s.trim()`. -/
def jsTrim (s : String) : String :=
  String.mk (dropTrailingWs (s.data.dropWhile isJsWhitespace))

/-- The JavaScript `s.startsWith(p)`. -/
def jsStartsWith (s p : String) : Bool :=
  p.data.isPrefixOf s.data

/-- The JavaScript `s.endsWith(p)`. -/
def jsEndsWith (s p : String) : Bool :=
  p.data.reverse.isPrefixOf s.data.reverse

/-- Split a character list at every occurrence of `sep` (never returns `[]`). -/
def splitChars (sep : Char) : List Char → List (List Char)
  | [] => [[]]
  | c :: cs =>
    if c = sep then [] :: splitChars sep cs
    else
      match splitChars sep cs with
      | [] => [[c]]
      | h :: t => (c :: h) :: t

/-- The JavaScript `s.split(sep)` for a one-character separator. -/
def jsSplit (s : String) (sep : Char) : List String :=
  (splitChars sep s.data).map String.mk

/-- JavaScript truthiness of a string value: non-empty. -/
def truthy (s : String) : Bool :=
  !s.data.isEmpty

/-- JavaScript truthiness of a possibly-undefined string. -/
def truthyOpt : Option String → Bool
  | none => false
  | some s => truthy s

/-- The value of `a || b` for possibly-undefined strings. -/
def jsOr (a b : Option String) : Option String :=
  if truthyOpt a then a else b

/-! ## add_mod.js -/

namespace AddMod

/-- The predicate of `parts.findIndex` in `normalizeModInput`. -/
def isModOrProject (part : String) : Bool :=
  part = "mod" || part = "project"

/-- The JavaScript `parts.findIndex(p)`; `none` is `-1`. -/
def jsFindIndex {α : Type} (p : α → Bool) : List α → Option Nat
  | [] => none
  | a :: l => if p a then some 0 else (jsFindIndex p l).map (· + 1)

/-- The path components of a URL pathname:
`url.pathname.split("/").filter(Boolean)`. -/
def pathParts (pathname : String) : List String :=
  (jsSplit pathname '/').filter truthy

/-- The body of the `try` block of `normalizeModInput`, from the pathname on. -/
def slugOfPathname (pathname : String) : Option String :=
  let parts := pathParts pathname
  let fallback : Option String :=
    match parts.getLast? with
    | some last => if truthy last then some last else none
    | none => none
  match jsFindIndex isModOrProject parts with
  | some idx =>
    match parts[idx + 1]? with
    | some next => if truthy next then some next else fallback
    | none => fallback
  | none => fallback

/-- The function `normalizeModInput` of `add_mod.js`.  `none` is the JavaScript
`null`.  `urlPathname t` is the `pathname` of `new URL(t)`, or `none` when the
constructor throws. -/
def normalizeModInput (urlPathname : String → Option String) (input : String) :
    Option String :=
  let trimmed := jsTrim input
  if !truthy trimmed then none
  else if !jsStartsWith trimmed "http" then some trimmed
  else
    match urlPathname trimmed with
    | some pathname => slugOfPathname pathname
    | none => some trimmed

/-- Characters of a path that the plain URL model accepts besides `/`: none
of them is changed or percent-encoded by the URL parser. -/
def isPlainPathChar (c : Char) : Bool :=
  c.isAlphanum || c = '-' || c = '_' || c = '.'

/-- Model of `new URL(t).pathname` on plain `http://` and `https://` URLs,
the scheme in any mix of upper and lower case (the parser lowers it): a host
made of non-empty labels of ASCII letters joined by `.`, then a path of
letters, digits, `-`, `_`, `.` and `/` with no `.` or `..` component, then an
optional query or fragment, which is cut.  On these inputs the WHATWG parser
accepts the host and leaves the path text unchanged (an absent path becomes
`/`).  Any other input is answered `none`: it lies outside the model, not
necessarily outside the parser. -/
def plainUrlPathname (t : String) : Option String :=
  let lowered := t.data.map Char.toLower
  let rest : Option (List Char) :=
    if "https://".data.isPrefixOf lowered then some (t.data.drop 8)
    else if "http://".data.isPrefixOf lowered then some (t.data.drop 7)
    else none
  match rest with
  | none => none
  | some r =>
    let noTail := r.takeWhile (fun c => c != '?' && c != '#')
    let host := noTail.takeWhile (fun c => c != '/')
    let path := noTail.dropWhile (fun c => c != '/')
    if !(splitChars '.' host).all (fun label => !label.isEmpty && label.all Char.isAlpha)
    then none
    else if !path.all (fun c => isPlainPathChar c || c = '/') then none
    else if (splitChars '/' path).any (fun seg => seg = ['.'] || seg = ['.', '.']) then none
    else if path.isEmpty then some "/"
    else some (String.mk path)

end AddMod

/-! ## modrinth_download.js: data -/

/-- A registry project, the body of `GET /project/{slug}`. -/
structure Project where
  id : String
  slug : String
  title : String
  deriving DecidableEq, Repr

/-- A search hit, an element of `hits` in the body of `GET /search`. -/
structure Hit where
  project_id : String
  slug : String
  title : String
  deriving DecidableEq, Repr

/-- A file of a version.  `sha1` and `sha512` are the two members of `hashes`. -/
structure ModFile where
  filename : String
  url : String
  primary : Bool
  sha1 : String
  sha512 : String
  deriving DecidableEq, Repr

/-- A version of a project.  `files` is `none` when the member is absent. -/
structure Version where
  version_number : String
  date_published : String
  files : Option (List ModFile)
  deriving DecidableEq, Repr

/-- An entry of the download report.  A field is `none` when the JavaScript
object has no such member.  `serverSide` and `server_side` are never set by
the downloader; they are read by `server_mods.js`. -/
structure Entry where
  query : Option String
  status : Option String
  id : Option String
  slug : Option String
  title : Option String
  resolvedBy : Option String
  version : Option String
  file : Option String
  error : Option String
  serverSide : Option String
  server_side : Option String
  deriving DecidableEq, Repr

/-- The object literal `{ query }` that starts a report entry. -/
def Entry.ofQuery (query : String) : Entry :=
  { query := some query, status := none, id := none, slug := none, title := none,
    resolvedBy := none, version := none, file := none, error := none,
    serverSide := none, server_side := none }

/-- The effects of the downloader, in the order they happen. -/
inductive Event where
  | mkdir (path : String)
  | getProject (slug : String)
  | search (query : String)
  | getVersions (projectId : String) (gameVersion loader : Option String)
  | download (url dest : String)
  | writeReport (path : String) (report : List Entry)
  deriving DecidableEq, Repr

/-- Whether an event is a request to the registry or its file host. -/
def Event.isRequest : Event → Bool
  | .getProject _ => true
  | .search _ => true
  | .getVersions _ _ _ => true
  | .download _ _ => true
  | _ => false

/-- What an HTTPS request comes back with: a response with a status code and
a body (`.error` when `JSON.parse` of the body throws), or a transport error. -/
inductive Reply (α : Type) where
  | response (statusCode : Nat) (body : Except String α)
  | networkError (message : String)

/-- The value of `JSON.parse` on a mod-list file: an array, whose items are
carried by their `String(item)` conversion, or some other JSON value. -/
inductive JsonMods where
  | array (items : List String)
  | other
  deriving DecidableEq, Repr

namespace Download

/-- Everything outside the downloader.  The registry oracles receive the log
of the effects so far, so that an answer may depend on the whole history.
`mkdirSync` and `writeFileSync` tell whether the call on that path returns
(`true`) or throws. -/
structure World where
  cwd : String
  readFile : String → Option String
  mkdirSync : String → Bool
  writeFileSync : String → Bool
  jsonParse : String → Option JsonMods
  parseIso : String → Int
  project : List Event → String → Reply (Option Project)
  searchHits : List Event → String → Reply (Option (List Hit))
  versions : List Event → String → Option String → Option String →
    Reply (Option (List Version))
  downloadFile : List Event → String → String → Except String Unit

end Download

/-- The base URL of the registry API. -/
def API_BASE : String := "https://api.modrinth.com/v2"

/-- The function `fetchJson`: a status of 400 or more rejects with
`HTTP <status> for <url>`. -/
def fetchJson {α : Type} (url : String) : Reply α → Except String α
  | .networkError message => .error message
  | .response statusCode body =>
    if statusCode ≥ 400 then
      .error ("HTTP " ++ toString statusCode ++ " for " ++ url)
    else body

/-! ## The POSIX `path` module -/

/-- The POSIX `path.isAbsolute`. -/
def pathIsAbsolute (p : String) : Bool :=
  jsStartsWith p "/"

/-- The segments kept by `normalizeString` of the `path` module, with the
segments kept so far in reverse order: empty segments and `.` are dropped,
`..` removes the segment before it, and is itself kept only when there is
nothing to remove and the path may climb above its start. -/
def normalizeSegments (allowAboveRoot : Bool) :
    List (List Char) → List (List Char) → List (List Char)
  | kept, [] => kept.reverse
  | kept, seg :: rest =>
    if seg = [] || seg = ['.'] then normalizeSegments allowAboveRoot kept rest
    else if seg = ['.', '.'] then
      match kept with
      | [] =>
        if allowAboveRoot then normalizeSegments allowAboveRoot [seg] rest
        else normalizeSegments allowAboveRoot [] rest
      | top :: below =>
        if top = ['.', '.'] then
          if allowAboveRoot then normalizeSegments allowAboveRoot (seg :: kept) rest
          else normalizeSegments allowAboveRoot kept rest
        else normalizeSegments allowAboveRoot below rest
    else normalizeSegments allowAboveRoot (seg :: kept) rest

/-- The function `normalizeString` of the `path` module on the characters of
a path. -/
def normalizeChars (allowAboveRoot : Bool) (cs : List Char) : List Char :=
  List.intercalate ['/'] (normalizeSegments allowAboveRoot [] (splitChars '/' cs))

/-- The POSIX `path.normalize`. -/
def pathNormalize (p : String) : String :=
  if p.data.isEmpty then "."
  else
    let isAbsolute := pathIsAbsolute p
    let trailingSeparator := p.data.getLast? = some '/'
    let body := normalizeChars (!isAbsolute) p.data
    if body.isEmpty then
      if isAbsolute then "/" else if trailingSeparator then "./" else "."
    else
      let withTrailing := if trailingSeparator then body ++ ['/'] else body
      String.mk (if isAbsolute then '/' :: withTrailing else withTrailing)

/-- The POSIX `path.join` of two components: the non-empty ones are joined
with `/` and the result is normalised. -/
def pathJoin (a b : String) : String :=
  if a.data.isEmpty then
    if b.data.isEmpty then "." else pathNormalize b
  else if b.data.isEmpty then pathNormalize a
  else pathNormalize (a ++ "/" ++ b)

/-- The POSIX `path.resolve` of one argument against the working directory
`cwd`: the argument, then the working directory when the argument is not
absolute, each followed by `/` and empty ones skipped; the result is
normalised and has no trailing separator. -/
def pathResolve (cwd p : String) : String :=
  let fromArg : String := if p.data.isEmpty then "" else p ++ "/"
  let resolved : String :=
    if pathIsAbsolute p then fromArg
    else if cwd.data.isEmpty then fromArg
    else cwd ++ "/" ++ fromArg
  if pathIsAbsolute resolved then
    String.mk ('/' :: normalizeChars false resolved.data)
  else
    let body := normalizeChars true resolved.data
    if body.isEmpty then "." else String.mk body

/-! ## modrinth_download.js: argument parsing and mod sources -/

namespace Download

/-- The `args` object of the downloader; `none` is `undefined` or `null`. -/
structure Args where
  loader : Option String
  gameVersion : Option String
  output : Option String
  mods : Option (List String)
  modsFile : Option String
  deriving DecidableEq, Repr

/-- The initial `args` object of `parseArgs`. -/
def Args.defaults : Args :=
  { loader := some "neoforge", gameVersion := some "1.21.1", output := some "mods",
    mods := none, modsFile := none }

/-- The condition of the `while` in the `--mods` case, on `argv[i + 1]`. -/
def isInlineMod (t : String) : Bool :=
  truthy t && !jsStartsWith t "--"

/-- The `while` loop of the `--mods` case: from index `i`, consume the
following tokens; returns the final `i` and the collected list. -/
def collectMods (argv : List String) : Nat → Nat → List String → Nat × List String
  | 0, i, acc => (i, acc)
  | fuel + 1, i, acc =>
    match argv.get? (i + 1) with
    | some t =>
      if isInlineMod t then collectMods argv fuel (i + 1) (acc ++ [t]) else (i, acc)
    | none => (i, acc)

/-- The `for` loop of `parseArgs` from index `i`; `none` is `{ help: true }`.
Each turn raises `i`, so `argv.length` turns are enough. -/
def parseLoop (argv : List String) : Nat → Nat → Args → Option Args
  | 0, _, args => some args
  | fuel + 1, i, args =>
    match argv.get? i with
    | none => some args
    | some arg =>
      if arg = "--loader" then
        parseLoop argv fuel (i + 2) { args with loader := argv.get? (i + 1) }
      else if arg = "--game-version" then
        parseLoop argv fuel (i + 2) { args with gameVersion := argv.get? (i + 1) }
      else if arg = "--output" then
        parseLoop argv fuel (i + 2) { args with output := argv.get? (i + 1) }
      else if arg = "--mods-file" then
        parseLoop argv fuel (i + 2) { args with modsFile := argv.get? (i + 1) }
      else if arg = "--mods" then
        let r := collectMods argv argv.length i []
        parseLoop argv fuel (r.1 + 1) { args with mods := some r.2 }
      else if arg = "--help" || arg = "-h" then none
      else parseLoop argv fuel (i + 1) args

/-- The function `parseArgs` of `modrinth_download.js`. -/
def parseArgs (argv : List String) : Option Args :=
  parseLoop argv argv.length 2 Args.defaults

/-- The function `loadModList`: the trimmed lines that are neither empty nor
a `#` comment.  `.error` is the exception of `readFileSync`. -/
def loadModList (w : World) (filePath : String) : Except String (List String) :=
  match w.readFile filePath with
  | none => .error ("ENOENT: no such file or directory, open " ++ filePath)
  | some raw =>
    .ok (((jsSplit raw '\n').map jsTrim).filter
      (fun line => truthy line && !jsStartsWith line "#"))

/-- The function `loadModJson`. -/
def loadModJson (w : World) (filePath : String) : Except String (List String) :=
  match w.readFile filePath with
  | none => .error ("ENOENT: no such file or directory, open " ++ filePath)
  | some raw =>
    match w.jsonParse raw with
    | none => .error "SyntaxError: JSON.parse"
    | some .other => .error ("Expected JSON array in " ++ filePath)
    | some (.array items) =>
      let mods := (items.map jsTrim).filter truthy
      if mods.length = 0 then .error ("No mods found in " ++ filePath)
      else .ok mods

/-- How the start of `main` ends: with the list to process, with `return 2`,
or with an exception. -/
inductive ModSource where
  | mods (list : List String)
  | missingDefault
  | threw (message : String)
  deriving DecidableEq, Repr

/-- Turn the result of a loader into a `ModSource`. -/
def ModSource.ofLoad : Except String (List String) → ModSource
  | .ok list => .mods list
  | .error message => .threw message

/-- The path `path.join(process.cwd(), "mods", "mods.json")`. -/
def defaultModsJson (w : World) : String :=
  pathJoin (pathJoin w.cwd "mods") "mods.json"

/-- The `if` chain of `main` that chooses the mod source (lines 181-193). -/
def selectMods (w : World) (args : Args) : ModSource :=
  if truthyOpt args.modsFile then
    let modsFile := args.modsFile.getD ""
    if jsEndsWith modsFile ".json" then ModSource.ofLoad (loadModJson w modsFile)
    else ModSource.ofLoad (loadModList w modsFile)
  else if (args.mods.getD []).length > 0 then
    .mods (args.mods.getD [])
  else if (w.readFile (defaultModsJson w)).isSome then
    ModSource.ofLoad (loadModJson w (defaultModsJson w))
  else .missingDefault

/-! ## modrinth_download.js: resolution, version choice and the main loop -/

/-- The object returned by `resolveProject`. -/
structure Resolved where
  id : String
  slug : String
  title : String
  resolvedBy : String
  deriving DecidableEq, Repr

/-- The function `tryGetProject`: a rejection whose message starts with
`HTTP 404` is turned into `null`.  Percent-encoding of the slug in the URL is
not modelled; the URL only appears in the message. -/
def tryGetProject (w : World) (log : List Event) (slug : String) :
    Except String (Option Project) :=
  match fetchJson (API_BASE ++ "/project/" ++ slug) (w.project log slug) with
  | .ok body => .ok body
  | .error message =>
    if jsStartsWith message "HTTP 404" then .ok none else .error message

/-- The function `searchProject`: the first hit, if any.  The query string of
the URL is abbreviated; the URL only appears in the rejection message. -/
def searchProject (w : World) (log : List Event) (query : String) :
    Except String (Option Hit) :=
  match fetchJson (API_BASE ++ "/search?query=" ++ query) (w.searchHits log query) with
  | .ok hits => .ok (hits.getD []).head?
  | .error message => .error message

/-- The function `resolveProject`, with the log of its requests. -/
def resolveProject (w : World) (log : List Event) (query : String) :
    List Event × Except String (Option Resolved) :=
  match tryGetProject w log query with
  | .error message => (log ++ [.getProject query], .error message)
  | .ok (some project) =>
    (log ++ [.getProject query],
      .ok (some { id := project.id, slug := project.slug, title := project.title,
                  resolvedBy := "slug" }))
  | .ok none =>
    match searchProject w (log ++ [.getProject query]) query with
    | .error message => (log ++ [.getProject query, .search query], .error message)
    | .ok none => (log ++ [.getProject query, .search query], .ok none)
    | .ok (some hit) =>
      (log ++ [.getProject query, .search query],
        .ok (some { id := hit.project_id, slug := hit.slug, title := hit.title,
                    resolvedBy := "search" }))

/-- Insert `a` in front of the first element that does not have to precede it
(`cmp a b ≤ 0`). -/
def insertSorted {α : Type} (cmp : α → α → Int) (a : α) : List α → List α
  | [] => [a]
  | b :: l => if cmp a b ≤ 0 then a :: b :: l else b :: insertSorted cmp a l

/-- The result of `Array.prototype.sort(cmp)`.  The built-in sort is stable, so
for a comparator that orders by a key its result is that of any stable sort;
the embedding uses insertion from the right. -/
def jsSort {α : Type} (cmp : α → α → Int) (l : List α) : List α :=
  l.foldr (insertSorted cmp) []

/-- The comparator of `getLatestVersion`:
`parseIso(b.date_published) - parseIso(a.date_published)`.  Publish dates are
taken to be valid, so `parseIso` yields an integer (milliseconds), never NaN. -/
def byDateDesc (parseIso : String → Int) (a b : Version) : Int :=
  parseIso b.date_published - parseIso a.date_published

/-- The part of `getLatestVersion` after the fetch. -/
def latestOf (parseIso : String → Int) (versions : Option (List Version)) :
    Option Version :=
  match versions with
  | none => none
  | some vs => if vs.length = 0 then none else (jsSort (byDateDesc parseIso) vs).head?

/-- The function `getLatestVersion`.  The query string of the URL is left
out; the URL only appears in the rejection message. -/
def getLatestVersion (w : World) (log : List Event) (projectId : String)
    (gameVersion loader : Option String) : Except String (Option Version) :=
  match fetchJson (API_BASE ++ "/project/" ++ projectId ++ "/version")
      (w.versions log projectId gameVersion loader) with
  | .ok versions => .ok (latestOf w.parseIso versions)
  | .error message => .error message

/-- The entry after `Object.assign(entry, project)`. -/
def assignProject (entry : Entry) (project : Resolved) : Entry :=
  { entry with id := some project.id, slug := some project.slug,
               title := some project.title, resolvedBy := some project.resolvedBy }

/-- One turn of the `for` loop of `main` (lines 198-250): the log after it and
either the entry pushed to `results` or the exception that ends the run. -/
def processQuery (w : World) (args : Args) (output : String) (log : List Event)
    (query : String) : List Event × Except String Entry :=
  match resolveProject w log query with
  | (log1, .error message) => (log1, .error message)
  | (log1, .ok none) =>
    (log1, .ok { Entry.ofQuery query with status := some "not_found" })
  | (log1, .ok (some project)) =>
    let entry := assignProject (Entry.ofQuery query) project
    let log2 := log1 ++ [.getVersions project.id args.gameVersion args.loader]
    match getLatestVersion w log1 project.id args.gameVersion args.loader with
    | .error message => (log2, .error message)
    | .ok none => (log2, .ok { entry with status := some "no_version" })
    | .ok (some version) =>
      let files := version.files.getD []
      if files.length = 0 then (log2, .ok { entry with status := some "no_files" })
      else
      match (files.find? (fun f => f.primary)).orElse (fun _ => files.head?) with
      | none => (log2, .error "TypeError: Cannot read properties of undefined")
      | some primary =>
        let dest := pathJoin output primary.filename
        match w.downloadFile log2 primary.url dest with
        | .error message =>
          (log2 ++ [.download primary.url dest],
            .ok { entry with status := some "download_failed", error := some message })
        | .ok _ =>
          (log2 ++ [.download primary.url dest],
            .ok { entry with status := some "downloaded",
                             version := some version.version_number,
                             file := some primary.filename })

/-- The `for` loop of `main` over the remaining identifiers: `.error` carries
the log up to the exception, `.ok` the log and `results` at the end. -/
def processMods (w : World) (args : Args) (output : String) :
    List String → List Event → List Entry → Except (List Event) (List Event × List Entry)
  | [], log, results => .ok (log, results)
  | query :: rest, log, results =>
    match processQuery w args output log query with
    | (log1, .error _) => .error log1
    | (log1, .ok entry) => processMods w args output rest log1 (results ++ [entry])

/-- How a run of the downloader ends: the exit status, the report handed to
`fs.writeFileSync` if the run got that far, and the effects performed. -/
structure Outcome where
  exitCode : Nat
  report : Option (List Entry)
  log : List Event
  deriving DecidableEq, Repr

/-- The rest of `main` once the mod list is chosen (lines 195-261).  An
exception of `fs.mkdirSync` (also the one for an undefined `args.output`) or
of `fs.writeFileSync` ends the run with status 1. -/
def runWith (w : World) (args : Args) (mods : List String) : Outcome :=
  match args.output with
  | none => { exitCode := 1, report := none, log := [] }
  | some output =>
    if !w.mkdirSync output then { exitCode := 1, report := none, log := [] }
    else
      match processMods w args output mods [.mkdir output] [] with
      | .error log => { exitCode := 1, report := none, log := log }
      | .ok (log, results) =>
        let reportPath := pathJoin output "modrinth_report.json"
        if !w.writeFileSync reportPath then
          { exitCode := 1, report := none, log := log }
        else
          let misses := results.filter (fun r => r.status != some "downloaded")
          { exitCode := if misses.length > 0 then 2 else 0,
            report := some results,
            log := log ++ [.writeReport reportPath results] }

/-- The function `main` of `modrinth_download.js` together with the
`process.exit` that follows it: an exception gives status 1. -/
def main (w : World) (argv : List String) : Outcome :=
  match parseArgs argv with
  | none => { exitCode := 0, report := none, log := [] }
  | some args =>
    match selectMods w args with
    | .missingDefault => { exitCode := 2, report := none, log := [] }
    | .threw _ => { exitCode := 1, report := none, log := [] }
    | .mods mods => runWith w args mods

end Download

/-! ## Paths and external entries, shared by the pack assembler and the extractor -/

/-- The POSIX `path.basename`: trailing separators are dropped, then the text
after the last separator is returned. -/
def pathBasename (p : String) : String :=
  let body := ((p.data.reverse.dropWhile (fun c => c = '/')).reverse)
  String.mk ((splitChars '/' body).getLast?.getD [])

/-- An entry of the external-mods list; `none` is an absent member. -/
structure ExternalEntry where
  file : Option String
  url : Option String
  name : Option String
  side : Option String
  clientSide : Option String
  client_side : Option String
  serverSide : Option String
  server_side : Option String
  deriving DecidableEq, Repr

/-- The value of `JSON.parse` on the external-mods file. -/
inductive JsonExternal where
  | array (items : List ExternalEntry)
  | other
  deriving DecidableEq, Repr

/-! ## modrinth_pack.js -/

namespace Pack

/-- The `args` object of the pack assembler. -/
structure Args where
  loader : Option String
  gameVersion : Option String
  modsDir : Option String
  report : Option String
  external : Option String
  output : Option String
  name : Option String
  summary : Option String
  loaderVersion : Option String
  deriving DecidableEq, Repr

/-- The initial `args` object of `parseArgs`. -/
def Args.defaults : Args :=
  { loader := some "neoforge", gameVersion := some "1.21.11", modsDir := some "mods",
    report := some "mods/modrinth_report.json",
    external := some "mods/external_mods.json",
    output := some "neoforge-1.21.11.mrpack", name := some "NeoForge 1.21.11 Mods",
    summary := some "Auto-generated Modrinth pack for the server/client mod list.",
    loaderVersion := none }

/-- The `for` loop of `parseArgs` from index `i`; `none` is `{ help: true }`. -/
def parseLoop (argv : List String) : Nat → Nat → Args → Option Args
  | 0, _, args => some args
  | fuel + 1, i, args =>
    match argv.get? i with
    | none => some args
    | some arg =>
      if arg = "--loader" then
        parseLoop argv fuel (i + 2) { args with loader := argv.get? (i + 1) }
      else if arg = "--game-version" then
        parseLoop argv fuel (i + 2) { args with gameVersion := argv.get? (i + 1) }
      else if arg = "--mods-dir" then
        parseLoop argv fuel (i + 2) { args with modsDir := argv.get? (i + 1) }
      else if arg = "--report" then
        parseLoop argv fuel (i + 2) { args with report := argv.get? (i + 1) }
      else if arg = "--external" then
        parseLoop argv fuel (i + 2) { args with external := argv.get? (i + 1) }
      else if arg = "--output" then
        parseLoop argv fuel (i + 2) { args with output := argv.get? (i + 1) }
      else if arg = "--name" then
        parseLoop argv fuel (i + 2) { args with name := argv.get? (i + 1) }
      else if arg = "--summary" then
        parseLoop argv fuel (i + 2) { args with summary := argv.get? (i + 1) }
      else if arg = "--loader-version" then
        parseLoop argv fuel (i + 2) { args with loaderVersion := argv.get? (i + 1) }
      else if arg = "--help" || arg = "-h" then none
      else parseLoop argv fuel (i + 1) args

/-- The function `parseArgs` of `modrinth_pack.js`. -/
def parseArgs (argv : List String) : Option Args :=
  parseLoop argv argv.length 2 Args.defaults

/-- An element of `files` in the pack index. -/
structure FileRecord where
  path : String
  sha1 : String
  sha512 : String
  downloads : List String
  fileSize : Nat
  deriving DecidableEq, Repr

/-- The pack index written as `modrinth.index.json`.  A dependency whose value
is `none` is dropped by `JSON.stringify`. -/
structure Index where
  formatVersion : Nat
  game : String
  versionId : String
  name : Option String
  summary : Option String
  files : List FileRecord
  dependencies : List (String × Option String)
  deriving DecidableEq, Repr

/-- The effects of the pack assembler, in the order they happen. -/
inductive Event where
  | getVersions (projectId : String) (gameVersion loader : Option String)
  | stat (path : String)
  | hashFile (path algorithm : String)
  | mkdtemp (dir : String)
  | writeIndex (path : String) (index : Index)
  | zip (cwd outputPath : String)
  deriving DecidableEq, Repr

/-- Whether an event writes the staging directory, the manifest or the
archive. -/
def Event.isWrite : Event → Bool
  | .mkdtemp _ => true
  | .writeIndex _ _ => true
  | .zip _ _ => true
  | _ => false

/-- Everything outside the pack assembler.  `readReport` is
`JSON.parse(fs.readFileSync(path))`; `statSize` is `none` when `fs.statSync`
throws; `zipStatus` is the `status` of the `zip` child process. -/
structure World where
  cwd : String
  readReport : String → Except String (List Entry)
  readFile : String → Option String
  jsonParse : String → Option JsonExternal
  versions : List Event → String → Option String → Option String →
    Reply (Option (List Version))
  statSize : String → Option Nat
  hashFile : String → String → Except String String
  mkdtemp : String
  zipStatus : Option Nat

/-- The function `getFileInfo`: the first file with the given name among the
versions of the project. -/
def getFileInfo (w : World) (log : List Event) (projectId filename : String)
    (gameVersion loader : Option String) : Except String (Option ModFile) :=
  match fetchJson (API_BASE ++ "/project/" ++ projectId ++ "/version")
      (w.versions log projectId gameVersion loader) with
  | .error message => .error message
  | .ok versions =>
    .ok ((versions.getD []).findSome? (fun version =>
      (version.files.getD []).find? (fun file => file.filename = filename)))

/-- The function `loadExternalMods`. -/
def loadExternalMods (w : World) (filePath : String) :
    Except String (List ExternalEntry) :=
  match w.readFile filePath with
  | none => .ok []
  | some raw =>
    match w.jsonParse raw with
    | none => .error "SyntaxError: JSON.parse"
    | some .other => .error ("Expected JSON array in " ++ filePath)
    | some (.array items) => .ok items

/-- The object returned by `normalizeExternalEntry`. -/
structure Normalized where
  filename : String
  localPath : String
  url : String
  deriving DecidableEq, Repr

/-- The function `normalizeExternalEntry`. -/
def normalizeExternalEntry (entry : ExternalEntry) (modsDir : String) :
    Except String Normalized :=
  let fileValue := jsTrim ((jsOr entry.file (some "")).getD "")
  if !truthy fileValue then .error "External entry missing 'file'."
  else
    let urlValue := jsTrim ((jsOr entry.url (some "")).getD "")
    if !truthy urlValue then .error "External entry missing 'url'."
    else
      let localPath :=
        if pathIsAbsolute fileValue then fileValue else pathJoin modsDir fileValue
      .ok { filename := pathBasename fileValue, localPath := localPath, url := urlValue }

/-- The first `for` loop of `main` (lines 136-155) over the remaining
downloaded entries.  `.error` carries the log and the message of the
exception. -/
def reportLoop (w : World) (args : Args) (modsDir : String) :
    List Entry → List Event → List FileRecord →
    Except (List Event × String) (List Event × List FileRecord)
  | [], log, files => .ok (log, files)
  | entry :: rest, log, files =>
    if !truthyOpt entry.id || !truthyOpt entry.file then
      reportLoop w args modsDir rest log files
    else
      let id := entry.id.getD ""
      let file := entry.file.getD ""
      let log1 := log ++ [.getVersions id args.gameVersion args.loader]
      match getFileInfo w log id file args.gameVersion args.loader with
      | .error message => .error (log1, message)
      | .ok none => .error (log1, "No Modrinth file match for " ++ file)
      | .ok (some info) =>
        let localPath := pathJoin modsDir file
        match w.statSize localPath with
        | none => .error (log1 ++ [.stat localPath], "ENOENT: no such file or directory, stat " ++ localPath)
        | some size =>
          reportLoop w args modsDir rest (log1 ++ [.stat localPath])
            (files ++ [{ path := "mods/" ++ file, sha1 := info.sha1, sha512 := info.sha512,
                         downloads := [info.url], fileSize := size }])

/-- The second `for` loop of `main` (lines 159-175) over the remaining
external entries. -/
def externalLoop (w : World) (modsDir : String) :
    List ExternalEntry → List Event → List FileRecord →
    Except (List Event × String) (List Event × List FileRecord)
  | [], log, files => .ok (log, files)
  | entry :: rest, log, files =>
    match normalizeExternalEntry entry modsDir with
    | .error message => .error (log, message)
    | .ok normalized =>
      let log1 := log ++ [.stat normalized.localPath]
      match w.statSize normalized.localPath with
      | none => .error (log1, "ENOENT: no such file or directory, stat " ++ normalized.localPath)
      | some size =>
        let filePath := "mods/" ++ normalized.filename
        if files.any (fun file => file.path = filePath) then
          .error (log1, "Duplicate mod file in pack: " ++ filePath)
        else
          let log2 := log1 ++ [.hashFile normalized.localPath "sha1"]
          match w.hashFile normalized.localPath "sha1" with
          | .error message => .error (log2, message)
          | .ok sha1 =>
            let log3 := log2 ++ [.hashFile normalized.localPath "sha512"]
            match w.hashFile normalized.localPath "sha512" with
            | .error message => .error (log3, message)
            | .ok sha512 =>
              externalLoop w modsDir rest log3
                (files ++ [{ path := filePath, sha1 := sha1, sha512 := sha512,
                             downloads := [normalized.url], fileSize := size }])

/-- The log at the end of a loop, whether it ended normally or not. -/
def logOf {α : Type} : Except (List Event × String) (List Event × α) → List Event
  | .ok (log, _) => log
  | .error (log, _) => log

/-- Assignment `obj[key] = value` on an object kept as a list of members. -/
def setMember (key : String) (value : Option String) :
    List (String × Option String) → List (String × Option String)
  | [] => [(key, value)]
  | (k, v) :: rest =>
    if k = key then (k, value) :: rest else (k, v) :: setMember key value rest

/-- The `dependencies` object (lines 177-178).  An undefined `args.loader`
is the member name `undefined`. -/
def dependenciesOf (args : Args) : List (String × Option String) :=
  if truthyOpt args.loaderVersion then
    setMember (args.loader.getD "undefined") args.loaderVersion
      [("minecraft", args.gameVersion)]
  else [("minecraft", args.gameVersion)]

/-- How a run of the pack assembler ends: the exit status, the message of the
exception if one was thrown, the index handed to the writer if the run got
that far, and the effects performed. -/
structure Outcome where
  exitCode : Nat
  error : Option String
  index : Option Index
  log : List Event
  deriving DecidableEq, Repr

/-- The function `main` after `parseArgs`, with the `process.exit` that
follows it: an exception gives status 1.  Creating the staging directory and
writing the index are taken to succeed. -/
def runWith (w : World) (args : Args) : Outcome :=
  match args.report, args.modsDir with
  | none, _ => { exitCode := 1, error := some "TypeError: path.resolve", index := none, log := [] }
  | some _, none => { exitCode := 1, error := some "TypeError: path.resolve", index := none, log := [] }
  | some reportArg, some modsDirArg =>
    let reportPath := pathResolve w.cwd reportArg
    let modsDir := pathResolve w.cwd modsDirArg
    match w.readReport reportPath with
    | .error message => { exitCode := 1, error := some message, index := none, log := [] }
    | .ok report =>
      let downloaded := report.filter (fun entry => entry.status = some "downloaded")
      if downloaded.length = 0 then
        { exitCode := 2, error := none, index := none, log := [] }
      else
        match reportLoop w args modsDir downloaded [] [] with
        | .error (log, message) =>
          { exitCode := 1, error := some message, index := none, log := log }
        | .ok (log1, files1) =>
          match args.external with
          | none =>
            { exitCode := 1, error := some "TypeError: path.resolve", index := none, log := log1 }
          | some externalArg =>
            match loadExternalMods w (pathResolve w.cwd externalArg) with
            | .error message =>
              { exitCode := 1, error := some message, index := none, log := log1 }
            | .ok externalMods =>
              match externalLoop w modsDir externalMods log1 files1 with
              | .error (log, message) =>
                { exitCode := 1, error := some message, index := none, log := log }
              | .ok (log2, files) =>
                let index : Index :=
                  { formatVersion := 1, game := "minecraft", versionId := "1.0.0",
                    name := args.name, summary := args.summary, files := files,
                    dependencies := dependenciesOf args }
                let log3 := log2 ++
                  [.mkdtemp w.mkdtemp,
                   .writeIndex (pathJoin w.mkdtemp "modrinth.index.json") index]
                match args.output with
                | none =>
                  { exitCode := 1, error := some "TypeError: path.resolve",
                    index := some index, log := log3 }
                | some outputArg =>
                  let log4 := log3 ++ [.zip w.mkdtemp (pathResolve w.cwd outputArg)]
                  if w.zipStatus = some 0 then
                    { exitCode := 0, error := none, index := some index, log := log4 }
                  else
                    { exitCode := 1,
                      error := some "zip command failed; ensure 'zip' is installed.",
                      index := some index, log := log4 }

/-- The function `main` of `modrinth_pack.js`. -/
def main (w : World) (argv : List String) : Outcome :=
  match parseArgs argv with
  | none => { exitCode := 0, error := none, index := none, log := [] }
  | some args => runWith w args

end Pack

/-! ## server_mods.js -/

namespace ServerMods

/-- The `args` object of the extractor. -/
structure Args where
  modsDir : Option String
  report : Option String
  external : Option String
  outputDir : Option String
  clean : Bool
  includeUnknown : Bool
  deriving DecidableEq, Repr

/-- The initial `args` object of `parseArgs`. -/
def Args.defaults : Args :=
  { modsDir := some "mods", report := some "mods/modrinth_report.json",
    external := some "mods/external_mods.json", outputDir := some "server_mods",
    clean := false, includeUnknown := false }

/-- The `for` loop of `parseArgs` from index `i`; `none` is `{ help: true }`. -/
def parseLoop (argv : List String) : Nat → Nat → Args → Option Args
  | 0, _, args => some args
  | fuel + 1, i, args =>
    match argv.get? i with
    | none => some args
    | some arg =>
      if arg = "--mods-dir" then
        parseLoop argv fuel (i + 2) { args with modsDir := argv.get? (i + 1) }
      else if arg = "--report" then
        parseLoop argv fuel (i + 2) { args with report := argv.get? (i + 1) }
      else if arg = "--external" then
        parseLoop argv fuel (i + 2) { args with external := argv.get? (i + 1) }
      else if arg = "--output-dir" then
        parseLoop argv fuel (i + 2) { args with outputDir := argv.get? (i + 1) }
      else if arg = "--clean" then
        parseLoop argv fuel (i + 1) { args with clean := true }
      else if arg = "--include-unknown" then
        parseLoop argv fuel (i + 1) { args with includeUnknown := true }
      else if arg = "--help" || arg = "-h" then none
      else parseLoop argv fuel (i + 1) args

/-- The function `parseArgs` of `server_mods.js`. -/
def parseArgs (argv : List String) : Option Args :=
  parseLoop argv argv.length 2 Args.defaults

/-- The object returned by `normalizeExternalSide`. -/
structure Sides where
  clientSide : Option String
  serverSide : Option String
  deriving DecidableEq, Repr

/-- The JavaScript `s.toLowerCase()` on the ASCII letters.  The three words
the result is compared with contain no letter that a character outside ASCII
lowers to, so the comparisons are those of the full conversion. -/
def jsToLowerCase (s : String) : String :=
  String.mk (s.data.map Char.toLower)

/-- The function `normalizeExternalSide`. -/
def normalizeExternalSide (entry : ExternalEntry) : Sides :=
  let side := jsTrim (jsToLowerCase ((jsOr entry.side (some "")).getD ""))
  if side = "client" then { clientSide := some "required", serverSide := some "unsupported" }
  else if side = "server" then { clientSide := some "unsupported", serverSide := some "required" }
  else if side = "both" then { clientSide := some "required", serverSide := some "required" }
  else
    { clientSide := jsOr entry.clientSide entry.client_side,
      serverSide := jsOr entry.serverSide entry.server_side }

/-- The function `isServerSupported`; `none` is `null`. -/
def isServerSupported (serverSide : Option String) : Option Bool :=
  if !truthyOpt serverSide then none
  else some (serverSide != some "unsupported")

/-- An element of `serverMods` or `unknownMods`. -/
structure Item where
  name : Option String
  file : Option String
  deriving DecidableEq, Repr

/-- The two lists built by the loops of `main`. -/
structure Lists where
  serverMods : List Item
  unknownMods : List Item
  deriving DecidableEq, Repr

/-- The first `for` loop of `main` (lines 81-91) over the remaining report
entries. -/
def reportLoop (includeUnknown : Bool) : List Entry → Lists → Lists
  | [], acc => acc
  | entry :: rest, acc =>
    if entry.status != some "downloaded" then reportLoop includeUnknown rest acc
    else
      let item : Item :=
        { name := jsOr (jsOr entry.title entry.slug) entry.query, file := entry.file }
      match isServerSupported (jsOr entry.serverSide entry.server_side) with
      | none =>
        if !includeUnknown then
          reportLoop includeUnknown rest { acc with unknownMods := acc.unknownMods ++ [item] }
        else
          reportLoop includeUnknown rest
            { serverMods := acc.serverMods ++ [item], unknownMods := acc.unknownMods ++ [item] }
      | some supported =>
        if !supported then reportLoop includeUnknown rest acc
        else
          reportLoop includeUnknown rest { acc with serverMods := acc.serverMods ++ [item] }

/-- The second `for` loop of `main` (lines 93-105) over the remaining
external entries. -/
def externalLoop (includeUnknown : Bool) : List ExternalEntry → Lists → Lists
  | [], acc => acc
  | entry :: rest, acc =>
    let fileValue := jsTrim ((jsOr entry.file (some "")).getD "")
    if !truthy fileValue then externalLoop includeUnknown rest acc
    else
      let item : Item := { name := jsOr entry.name (some fileValue), file := some fileValue }
      match isServerSupported (normalizeExternalSide entry).serverSide with
      | none =>
        if !includeUnknown then
          externalLoop includeUnknown rest { acc with unknownMods := acc.unknownMods ++ [item] }
        else
          externalLoop includeUnknown rest
            { serverMods := acc.serverMods ++ [item], unknownMods := acc.unknownMods ++ [item] }
      | some supported =>
        if !supported then externalLoop includeUnknown rest acc
        else
          externalLoop includeUnknown rest { acc with serverMods := acc.serverMods ++ [item] }

/-- The lists `serverMods` and `unknownMods` at the end of the two loops. -/
def classify (includeUnknown : Bool) (report : List Entry)
    (external : List ExternalEntry) : Lists :=
  externalLoop includeUnknown external
    (reportLoop includeUnknown report { serverMods := [], unknownMods := [] })

/-- The effects of the extractor, in the order they happen. -/
inductive Event where
  | rm (path : String)
  | mkdir (path : String)
  | copyFile (source dest : String)
  deriving DecidableEq, Repr

/-- A value read from a JSON file, as a `for ... of` loop sees it: the
entries it yields, or a value that cannot be iterated (an object, a number,
`null`), on which the loop throws. -/
inductive Loaded (α : Type) where
  | items (entries : List α)
  | notIterable

/-- Everything outside the extractor.  `readReport` and `readExternal` are
`JSON.parse(fs.readFileSync(path))`, `.error` when it throws; `copyFile` tells
whether `fs.copyFileSync` succeeds. -/
structure World where
  cwd : String
  exists_ : String → Bool
  readReport : String → Except String (Loaded Entry)
  readExternal : String → Except String (Loaded ExternalEntry)
  copyFile : String → String → Bool

/-- The function `loadJson` with the fallback `[]`.  An undefined path does
not exist. -/
def loadJson {α : Type} (fileExists : String → Bool)
    (read : String → Except String (Loaded α)) (filePath : Option String) :
    Except String (Loaded α) :=
  match filePath with
  | none => .ok (.items [])
  | some p => if !fileExists p then .ok (.items []) else read p

/-- The last `for` loop of `main` (lines 107-111): the copies made, and
whether the loop ended without an exception. -/
def copyLoop (w : World) (modsDir outputDir : String) :
    List Item → List Event → List Event × Bool
  | [], log => (log, true)
  | item :: rest, log =>
    match item.file with
    | none => (log, false)
    | some file =>
      let source := pathJoin modsDir file
      let dest := pathJoin outputDir (pathBasename file)
      if w.copyFile source dest then
        copyLoop w modsDir outputDir rest (log ++ [.copyFile source dest])
      else (log ++ [.copyFile source dest], false)

/-- How a run of the extractor ends: the exit status, the two lists when both
loops over the entries ended (empty lists otherwise), and the effects
performed. -/
structure Outcome where
  exitCode : Nat
  lists : Lists
  log : List Event
  deriving DecidableEq, Repr

/-- The function `main` after `parseArgs`, with the `process.exit` around it:
an exception gives status 1. -/
def runWith (w : World) (args : Args) : Outcome :=
  let empty : Lists := { serverMods := [], unknownMods := [] }
  match loadJson w.exists_ w.readReport args.report with
  | .error _ => { exitCode := 1, lists := empty, log := [] }
  | .ok report =>
    match loadJson w.exists_ w.readExternal args.external with
    | .error _ => { exitCode := 1, lists := empty, log := [] }
    | .ok external =>
      match args.modsDir, args.outputDir with
      | none, _ => { exitCode := 1, lists := empty, log := [] }
      | some _, none => { exitCode := 1, lists := empty, log := [] }
      | some modsDirArg, some outputDirArg =>
        let modsDir := pathResolve w.cwd modsDirArg
        let outputDir := pathResolve w.cwd outputDirArg
        let log0 : List Event :=
          if args.clean && w.exists_ outputDir then [.rm outputDir, .mkdir outputDir]
          else [.mkdir outputDir]
        match report, external with
        | .notIterable, _ => { exitCode := 1, lists := empty, log := log0 }
        | .items _, .notIterable => { exitCode := 1, lists := empty, log := log0 }
        | .items reportEntries, .items externalEntries =>
          let lists := classify args.includeUnknown reportEntries externalEntries
          match copyLoop w modsDir outputDir lists.serverMods log0 with
          | (log, true) => { exitCode := 0, lists := lists, log := log }
          | (log, false) => { exitCode := 1, lists := lists, log := log }

/-- The function `main` of `server_mods.js`. -/
def main (w : World) (argv : List String) : Outcome :=
  match parseArgs argv with
  | none => { exitCode := 0, lists := { serverMods := [], unknownMods := [] }, log := [] }
  | some args => runWith w args

end ServerMods

/-! ## update_pack.js -/

namespace UpdatePack

/-- The `args` object of the driver. -/
structure Args where
  loader : Option String
  gameVersion : Option String
  loaderVersion : Option String
  modsDir : Option String
  report : Option String
  outputPack : Option String
  deriving DecidableEq, Repr

/-- The constant `DEFAULTS`, the initial `args` object of `parseArgs`. -/
def DEFAULTS : Args :=
  { loader := some "neoforge", gameVersion := some "1.21.11",
    loaderVersion := some "21.11.13-beta", modsDir := some "mods",
    report := some "mods/modrinth_report.json",
    outputPack := some "neoforge-1.21.11-gravestone.mrpack" }

/-- The `for` loop of `parseArgs` from index `i`; `none` is `{ help: true }`. -/
def parseLoop (argv : List String) : Nat → Nat → Args → Option Args
  | 0, _, args => some args
  | fuel + 1, i, args =>
    match argv.get? i with
    | none => some args
    | some arg =>
      if arg = "--loader" then
        parseLoop argv fuel (i + 2) { args with loader := argv.get? (i + 1) }
      else if arg = "--game-version" then
        parseLoop argv fuel (i + 2) { args with gameVersion := argv.get? (i + 1) }
      else if arg = "--loader-version" then
        parseLoop argv fuel (i + 2) { args with loaderVersion := argv.get? (i + 1) }
      else if arg = "--mods-dir" then
        parseLoop argv fuel (i + 2) { args with modsDir := argv.get? (i + 1) }
      else if arg = "--report" then
        parseLoop argv fuel (i + 2) { args with report := argv.get? (i + 1) }
      else if arg = "--output" then
        parseLoop argv fuel (i + 2) { args with outputPack := argv.get? (i + 1) }
      else if arg = "--help" || arg = "-h" then none
      else parseLoop argv fuel (i + 1) args

/-- The function `parseArgs` of `update_pack.js`. -/
def parseArgs (argv : List String) : Option Args :=
  parseLoop argv argv.length 2 DEFAULTS

/-- A call of `spawnSync(cmd, args)`. -/
structure Command where
  cmd : String
  args : List String
  deriving DecidableEq, Repr

/-- The `process.argv` that the child of a command sees: the interpreter, then
the arguments, the script first.  The child reads its options from index 2
on, so the absolute form of the first two entries does not matter. -/
def Command.childArgv (c : Command) : List String :=
  c.cmd :: c.args

/-- An element of the `args` array as the child receives it: an `undefined`
element is converted to the text `undefined`. -/
def argText (value : Option String) : String :=
  value.getD "undefined"

/-- The first call of `main`: the downloader (lines 47-57). -/
def downloadCommand (args : Args) : Command :=
  { cmd := "node",
    args := ["modrinth_download.js", "--loader", argText args.loader,
             "--game-version", argText args.gameVersion,
             "--output", argText args.modsDir,
             "--pins", "mods/modrinth_pins.json"] }

/-- The second call of `main`: the pack assembler (lines 59-73). -/
def packCommand (args : Args) : Command :=
  { cmd := "node",
    args := ["modrinth_pack.js", "--game-version", argText args.gameVersion,
             "--loader", argText args.loader,
             "--mods-dir", argText args.modsDir,
             "--report", argText args.report,
             "--output", argText args.outputPack,
             "--loader-version", argText args.loaderVersion] }

/-- The third call of `main`: the server-subset extractor (line 75). -/
def serverCommand : Command :=
  { cmd := "node", args := ["server_mods.js", "--clean"] }

/-- The child processes: given the commands already run, the `status` of the
next one; `none` is the `null` of a child that was killed or could not be
started. -/
abbrev Spawn := List Command → Command → Option Nat

/-- The exit status the operating system reports for `process.exit(code)`. -/
def exitStatus (code : Nat) : Nat :=
  code % 256

/-- The function `run`, with the commands run so far: `.error` is the status
of `process.exit(result.status ?? 1)`, `.ok` the commands run when the
function returns. -/
def run (spawn : Spawn) (done : List Command) (c : Command) :
    Except (Nat × List Command) (List Command) :=
  match spawn done c with
  | some 0 => .ok (done ++ [c])
  | some status => .error (exitStatus status, done ++ [c])
  | none => .error (exitStatus 1, done ++ [c])

/-- How a run of the driver ends: the exit status and the commands run, in
order. -/
structure Outcome where
  exitCode : Nat
  commands : List Command
  deriving DecidableEq, Repr

/-- The function `main` of `update_pack.js` with the `process.exit` around
it. -/
def main (spawn : Spawn) (argv : List String) : Outcome :=
  match parseArgs argv with
  | none => { exitCode := 0, commands := [] }
  | some args =>
    match run spawn [] (downloadCommand args) with
    | .error (code, done) => { exitCode := code, commands := done }
    | .ok done1 =>
      match run spawn done1 (packCommand args) with
      | .error (code, done) => { exitCode := code, commands := done }
      | .ok done2 =>
        match run spawn done2 serverCommand with
        | .error (code, done) => { exitCode := code, commands := done }
        | .ok done3 => { exitCode := exitStatus 0, commands := done3 }

end UpdatePack

/-! ## Concrete inputs used by the examples -/

namespace Download

/-- The versions of the project `sodium` in the order of the registry's
response: an older one, then two published at the same time. -/
def demoVersions : List Version :=
  [{ version_number := "0.5.0", date_published := "2024-05-01T00:00:00.000Z",
     files := some [{ filename := "sodium-0.5.0.jar", url := "https://cdn/s050",
                      primary := true, sha1 := "a1", sha512 := "a5" }] },
   { version_number := "0.6.0", date_published := "2024-06-01T00:00:00.000Z",
     files := some [{ filename := "sodium-0.6.0-sources.jar", url := "https://cdn/s060s",
                      primary := false, sha1 := "b1", sha512 := "b5" },
                    { filename := "sodium-0.6.0.jar", url := "https://cdn/s060",
                      primary := true, sha1 := "c1", sha512 := "c5" }] },
   { version_number := "0.6.0-hotfix", date_published := "2024-06-01T00:00:00.000Z",
     files := some [{ filename := "sodium-0.6.0-hotfix.jar", url := "https://cdn/s060h",
                      primary := true, sha1 := "d1", sha512 := "d5" }] }]

/-- A world with a text list `list.txt` naming one mod, a text list `mods.txt`
that holds only a comment and blank lines, a file system in which a directory
can be created under every name but the empty one and every file can be
written, and a registry that knows the project `sodium` and nothing else. -/
def demoWorld : World :=
  { cwd := "/srv/pack"
    readFile := fun p =>
      if p = "list.txt" then some "from-file\n"
      else if p = "mods.txt" then some "# nothing yet\n\n   \n"
      else none
    mkdirSync := fun p => truthy p
    writeFileSync := fun _ => true
    jsonParse := fun _ => none
    parseIso := fun d =>
      if d = "2024-05-01T00:00:00.000Z" then 1714521600000
      else if d = "2024-06-01T00:00:00.000Z" then 1717200000000
      else 0
    project := fun _ slug =>
      if slug = "sodium" then
        .response 200 (.ok (some { id := "AANobbMI", slug := "sodium", title := "Sodium" }))
      else .response 404 (.error "not json")
    searchHits := fun _ _ => .response 200 (.ok (some []))
    versions := fun _ projectId _ _ =>
      if projectId = "AANobbMI" then .response 200 (.ok (some demoVersions))
      else .response 200 (.ok (some []))
    downloadFile := fun _ _ _ => .ok () }

/-- The entry of the run on `argvInline` in `demoWorld` for `sodium`. -/
def demoDownloaded : Entry :=
  { query := some "sodium", status := some "downloaded", id := some "AANobbMI",
    slug := some "sodium", title := some "Sodium", resolvedBy := some "slug",
    version := some "0.6.0", file := some "sodium-0.6.0.jar", error := none,
    serverSide := none, server_side := none }

/-- The report of the run on `argvInline` in `demoWorld`. -/
def demoReport : List Entry :=
  [demoDownloaded, { Entry.ofQuery "no-such-mod" with status := some "not_found" }]

/-- The log of the run on `argvInline` in `demoWorld`, up to the report. -/
def demoLog : List Event :=
  [.mkdir "mods", .getProject "sodium",
   .getVersions "AANobbMI" (some "1.21.1") (some "neoforge"),
   .download "https://cdn/s060" "mods/sodium-0.6.0.jar",
   .getProject "no-such-mod", .search "no-such-mod"]

/-- A command line with both an inline list and a list file. -/
def argvBoth : List String :=
  ["node", "modrinth_download.js", "--mods", "inline-a", "inline-b", "--mods-file", "list.txt"]

/-- A command line that names the comment-only list file. -/
def argvEmptyList : List String :=
  ["node", "modrinth_download.js", "--mods-file", "mods.txt"]

/-- A command line with an inline list of a known and an unknown mod. -/
def argvInline : List String :=
  ["node", "modrinth_download.js", "--mods", "sodium", "no-such-mod"]

end Download

namespace Pack

/-- A world for the pack assembler in which the report file holds `report`,
the external-mods file is absent (`none`) or holds the given array, the
registry lists the file `sodium-0.6.0.jar` for every project, every local
file exists with 1024 bytes, and `zip` succeeds. -/
def demoWorld (report : List Entry) (external : Option (List ExternalEntry)) : World :=
  { cwd := "/srv/pack"
    readReport := fun _ => .ok report
    readFile := fun _ => external.map (fun _ => "[ ... ]")
    jsonParse := fun _ => external.map JsonExternal.array
    versions := fun _ _ _ _ =>
      .response 200 (.ok (some [
        { version_number := "0.6.0", date_published := "2024-06-01T00:00:00.000Z",
          files := some [{ filename := "sodium-0.6.0.jar", url := "https://cdn/s060",
                           primary := true, sha1 := "c1", sha512 := "c5" }] }]))
    statSize := fun _ => some 1024
    hashFile := fun _ algorithm => .ok (algorithm ++ "-digest")
    mkdtemp := "/tmp/mrpack-Ab12Cd"
    zipStatus := some 0 }

/-- A downloaded report entry for the given identifier that names the file
`sodium-0.6.0.jar` of project `AANobbMI`. -/
def sodiumEntry (query : String) (resolvedBy : String) : Entry :=
  { query := some query, status := some "downloaded", id := some "AANobbMI",
    slug := some "sodium", title := some "Sodium", resolvedBy := some resolvedBy,
    version := some "0.6.0", file := some "sodium-0.6.0.jar", error := none,
    serverSide := none, server_side := none }

/-- A report in which two identifiers resolved to the same project and file:
the slug itself and a search text. -/
def twiceReport : List Entry :=
  [sodiumEntry "sodium" "slug", sodiumEntry "sodium renderer" "search"]

/-- A downloaded report entry that names the file `sodium-0.6.0.jar` and has
no project id. -/
def noIdEntry : Entry :=
  { query := some "sodium", status := some "downloaded", id := none,
    slug := none, title := none, resolvedBy := none,
    version := none, file := some "sodium-0.6.0.jar", error := none,
    serverSide := none, server_side := none }

/-- An external entry for a local copy of the same file name. -/
def sodiumExternal : ExternalEntry :=
  { file := some "manual/sodium-0.6.0.jar", url := some "https://example.org/sodium.jar",
    name := none, side := none, clientSide := none, client_side := none,
    serverSide := none, server_side := none }

/-- The command line of the pack assembler without options. -/
def argvPlain : List String :=
  ["node", "modrinth_pack.js"]

end Pack

namespace ServerMods

/-- A report entry with status `downloaded` and the given side fields. -/
def sideEntry (query file : String) (serverSide server_side : Option String) : Entry :=
  { query := some query, status := some "downloaded", id := some ("id-" ++ query),
    slug := some query, title := none, resolvedBy := some "slug", version := some "1.0",
    file := some file, error := none, serverSide := serverSide, server_side := server_side }

/-- An external entry with the given `side` shorthand and explicit
`serverSide`. -/
def sideExternal (file : String) (side serverSide : Option String) : ExternalEntry :=
  { file := some file, url := some ("https://example.org/" ++ file), name := none,
    side := side, clientSide := none, client_side := none,
    serverSide := serverSide, server_side := none }

/-- A report with a required, an unsupported (through `server_side`) and an
unclassified mod. -/
def sidesReport : List Entry :=
  [sideEntry "lithium" "lithium.jar" (some "required") none,
   sideEntry "sodium" "sodium.jar" none (some "unsupported"),
   sideEntry "jei" "jei.jar" none none]

/-- An external list with a server mod, a client mod, an explicitly
unsupported one and an unclassified one. -/
def sidesExternal : List ExternalEntry :=
  [sideExternal "chunky.jar" (some "Server") none,
   sideExternal "shaders.jar" (some "client") none,
   sideExternal "minimap.jar" none (some "unsupported"),
   sideExternal "extra.jar" none none]

end ServerMods

namespace ServerMods

/-- A downloaded report entry without any server-side member. -/
def plainEntry : Entry :=
  sideEntry "jei" "jei.jar" none none

/-- An external entry without any side member. -/
def plainExternal : ExternalEntry :=
  sideExternal "extra.jar" none none

/-- A world for the extractor in which the report file holds `report`, the
external-mods file holds `external`, the output directory does not exist yet
and every copy succeeds. -/
def demoWorld (report : List Entry) (external : List ExternalEntry) : World :=
  { cwd := "/srv/pack"
    exists_ := fun p =>
      p = "mods/modrinth_report.json" || p = "mods/external_mods.json"
    readReport := fun _ => .ok (.items report)
    readExternal := fun _ => .ok (.items external)
    copyFile := fun _ _ => true }

end ServerMods

namespace UpdatePack

/-- Child processes that end with the given statuses: the downloader with
`s1`, the pack assembler with `s2`, the extractor with `s3`. -/
def statuses (s1 s2 s3 : Nat) : Spawn :=
  fun _ c =>
    if c.args.head? = some "modrinth_download.js" then some s1
    else if c.args.head? = some "modrinth_pack.js" then some s2
    else some s3

/-- A driver command line that overrides the report path. -/
def argvReport : List String :=
  ["node", "update_pack.js", "--report", "reports/run.json"]

/-- A driver command line that overrides the mods directory. -/
def argvModsDir : List String :=
  ["node", "update_pack.js", "--mods-dir", "custom"]

end UpdatePack

namespace Download

/-- A world like `demoWorld` in which the default persisted list
`mods/mods.json` exists and names the one mod `sodium`. -/
def persistedWorld : World :=
  { demoWorld with
    readFile := fun p => if p = "/srv/pack/mods/mods.json" then some "[\"sodium\"]" else none
    jsonParse := fun raw =>
      if raw = "[\"sodium\"]" then some (.array ["sodium"]) else none }

end Download

/-! ## Properties of the string primitives -/

theorem truthy_of_startsWith_http (s : String) (h : jsStartsWith s "http" = true) :
    truthy s = true := by
  unfold jsStartsWith at h
  unfold truthy
  cases hs : s.data with
  | nil => rw [hs] at h; exact absurd h (by decide)
  | cons c cs => rfl

theorem dropTrailingWs_spec (cs : List Char) :
    (∃ post, cs = dropTrailingWs cs ++ post ∧ ∀ c ∈ post, isJsWhitespace c = true) ∧
    (∀ c, (dropTrailingWs cs).getLast? = some c → isJsWhitespace c = false) := by
  induction cs with
  | nil => exact ⟨⟨[], by simp [dropTrailingWs]⟩, by simp [dropTrailingWs]⟩
  | cons a l ih =>
    obtain ⟨⟨post, hpost, hws⟩, hlast⟩ := ih
    cases hd : dropTrailingWs l with
    | nil =>
      rw [hd] at hpost
      by_cases ha : isJsWhitespace a = true
      · refine ⟨⟨a :: l, ?_, ?_⟩, ?_⟩
        · simp [dropTrailingWs, hd, ha]
        · intro c hc
          rcases List.mem_cons.mp hc with rfl | hc
          · exact ha
          · exact hws c (by simpa [hpost] using hc)
        · simp [dropTrailingWs, hd, ha]
      · have ha2 : isJsWhitespace a = false := by simpa using ha
        refine ⟨⟨l, ?_, ?_⟩, ?_⟩
        · simp [dropTrailingWs, hd, ha2]
        · intro c hc
          exact hws c (by simpa [hpost] using hc)
        · intro c hc
          simp [dropTrailingWs, hd, ha2] at hc
          rw [← hc]; exact ha2
    | cons b r =>
      refine ⟨⟨post, ?_, hws⟩, ?_⟩
      · simp only [dropTrailingWs, hd]
        rw [hd] at hpost
        simp [hpost]
      · intro c hc
        apply hlast c
        rw [hd]
        simpa [dropTrailingWs, hd, List.getLast?_cons_cons] using hc

/-- The result of `jsTrim` is the input without a leading and a trailing run
of whitespace. -/
theorem jsTrim_spec (s : String) :
    ∃ pre post, s.data = pre ++ (jsTrim s).data ++ post ∧
      (∀ c ∈ pre, isJsWhitespace c = true) ∧ (∀ c ∈ post, isJsWhitespace c = true) ∧
      (∀ c, (jsTrim s).data.head? = some c → isJsWhitespace c = false) ∧
      (∀ c, (jsTrim s).data.getLast? = some c → isJsWhitespace c = false) := by
  obtain ⟨⟨post, hpost, hws⟩, hlast⟩ := dropTrailingWs_spec (s.data.dropWhile isJsWhitespace)
  refine ⟨s.data.takeWhile isJsWhitespace, post, ?_, ?_, hws, ?_, ?_⟩
  · show s.data = _ ++ dropTrailingWs (s.data.dropWhile isJsWhitespace) ++ post
    rw [List.append_assoc, ← hpost, List.takeWhile_append_dropWhile]
  · intro c hc
    exact List.mem_takeWhile_imp hc
  · intro c hc
    change (dropTrailingWs (s.data.dropWhile isJsWhitespace)).head? = some c at hc
    have hne : dropTrailingWs (s.data.dropWhile isJsWhitespace) ≠ [] := by
      intro h; rw [h] at hc; simp at hc
    have hhead : (s.data.dropWhile isJsWhitespace).head? = some c := by
      rw [hpost, List.head?_append_of_ne_nil _ hne]; exact hc
    by_contra hcon
    have hcw : isJsWhitespace c = true := by simpa using hcon
    have := List.head?_dropWhile_not isJsWhitespace s.data
    rw [hhead] at this
    simp [hcw] at this
  · exact hlast

/-! ## add_mod.js: normalisation -/

namespace AddMod

theorem jsFindIndex_append_hit {α : Type} (p : α → Bool) (pre : List α) (m : α)
    (post : List α) (hpre : ∀ x ∈ pre, p x = false) (hm : p m = true) :
    jsFindIndex p (pre ++ m :: post) = some pre.length := by
  induction pre with
  | nil => simp [jsFindIndex, hm]
  | cons a l ih =>
    have ha : p a = false := hpre a (by simp)
    have hl := ih (fun x hx => hpre x (by simp [hx]))
    simp [jsFindIndex, ha, hl]

theorem jsFindIndex_some {α : Type} (p : α → Bool) (l : List α) (i : Nat)
    (h : jsFindIndex p l = some i) :
    ∃ pre m post, l = pre ++ m :: post ∧ pre.length = i ∧ p m = true := by
  induction l generalizing i with
  | nil => simp [jsFindIndex] at h
  | cons a l ih =>
    by_cases ha : p a = true
    · simp [jsFindIndex, ha] at h
      exact ⟨[], a, l, rfl, by simpa using h, ha⟩
    · have ha2 : p a = false := by simpa using ha
      cases hj : jsFindIndex p l with
      | none => simp [jsFindIndex, ha2, hj] at h
      | some j =>
        simp [jsFindIndex, ha2, hj] at h
        obtain ⟨pre, m, post, hl, hlen, hm⟩ := ih j hj
        exact ⟨a :: pre, m, post, by simp [hl], by simp [hlen, h], hm⟩

theorem pathParts_truthy (pathname part : String) (h : part ∈ pathParts pathname) :
    truthy part = true := by
  unfold pathParts at h
  exact (List.mem_filter.mp h).2

/-- The value of `slugOfPathname` when the first `mod` or `project` component
has a successor. -/
theorem slugOfPathname_marker (pathname : String) (pre : List String)
    (m slug : String) (post : List String)
    (hparts : pathParts pathname = pre ++ m :: slug :: post)
    (hm : isModOrProject m = true) (hpre : ∀ x ∈ pre, isModOrProject x = false) :
    slugOfPathname pathname = some slug := by
  have hslug : truthy slug = true :=
    pathParts_truthy pathname slug (by rw [hparts]; simp)
  unfold slugOfPathname
  simp only [hparts, jsFindIndex_append_hit isModOrProject pre m (slug :: post) hpre hm]
  have hget : (pre ++ m :: slug :: post)[pre.length + 1]? = some slug := by
    rw [List.getElem?_append_right (by omega)]
    simp
  simp [hget, hslug]

/-- The value of `slugOfPathname` when no `mod` or `project` component has a
successor. -/
theorem slugOfPathname_fallback (pathname last : String)
    (hlast : (pathParts pathname).getLast? = some last)
    (hnone : ∀ pre m post, pathParts pathname = pre ++ m :: post →
      isModOrProject m = true → post = []) :
    slugOfPathname pathname = some last := by
  have hl : truthy last = true :=
    pathParts_truthy pathname last (List.mem_of_getLast?_eq_some hlast)
  unfold slugOfPathname
  simp only [hlast, hl, if_true]
  cases hf : jsFindIndex isModOrProject (pathParts pathname) with
  | none => rfl
  | some idx =>
    obtain ⟨pre, m, post, hparts, hlen, hm⟩ := jsFindIndex_some _ _ _ hf
    have hpost := hnone pre m post hparts hm
    subst hpost
    have hget : (pathParts pathname)[idx + 1]? = none := by
      rw [hparts, List.getElem?_eq_none_iff]
      simp [hlen]
    simp [hget]

theorem slugOfPathname_empty (pathname : String) (h : pathParts pathname = []) :
    slugOfPathname pathname = none := by
  unfold slugOfPathname
  simp [h, jsFindIndex]

/-- C1 (amended): for a token that the URL parser accepts and that, once
trimmed, starts with the lower-case text `http`, `normalizeModInput` returns
the segment that follows the first `mod` or `project` component of the path
when that component has a successor; when no `mod` or `project` component has
a successor it returns the last non-empty segment; with no non-empty segment
it returns `null`.  A token that does not start with the lower-case text
`http` is returned trimmed even when the URL parser accepts it. -/
theorem normalizeModInput_url (urlPathname : String → Option String)
    (input pathname : String)
    (hurl : urlPathname (jsTrim input) = some pathname) :
    (jsStartsWith (jsTrim input) "http" = true →
      (∀ pre m slug post, pathParts pathname = pre ++ m :: slug :: post →
          isModOrProject m = true → (∀ x ∈ pre, isModOrProject x = false) →
          normalizeModInput urlPathname input = some slug) ∧
      (∀ last, (pathParts pathname).getLast? = some last →
          (∀ pre m post, pathParts pathname = pre ++ m :: post →
            isModOrProject m = true → post = []) →
          normalizeModInput urlPathname input = some last) ∧
      (pathParts pathname = [] → normalizeModInput urlPathname input = none)) ∧
    (jsStartsWith (jsTrim input) "http" = false → truthy (jsTrim input) = true →
      normalizeModInput urlPathname input = some (jsTrim input)) := by
  constructor
  · intro hhttp
    have ht := truthy_of_startsWith_http _ hhttp
    have hn : normalizeModInput urlPathname input = slugOfPathname pathname := by
      unfold normalizeModInput
      simp [ht, hhttp, hurl]
    refine ⟨?_, ?_, ?_⟩
    · intro pre m slug post hparts hm hpre
      rw [hn]; exact slugOfPathname_marker pathname pre m slug post hparts hm hpre
    · intro last hlast hnone
      rw [hn]; exact slugOfPathname_fallback pathname last hlast hnone
    · intro h
      rw [hn]; exact slugOfPathname_empty pathname h
  · intro hhttp ht
    unfold normalizeModInput
    simp [ht, hhttp]

/-- Witness of `normalizeModInput_url` on a registry URL with a trailing
segment. -/
theorem normalizeModInput_url_witness :
    normalizeModInput plainUrlPathname "  https://modrinth.com/mod/sodium/versions " =
      some "sodium" :=
  ((normalizeModInput_url plainUrlPathname "  https://modrinth.com/mod/sodium/versions "
    "/mod/sodium/versions" (by decide)).1 (by decide)).1 [] "mod" "sodium" ["versions"]
    (by decide) (by decide) (by simp)

/-- C1 as stated fails: `HTTPS://modrinth.com/mod/sodium` is a URL that the
parser accepts, its path has the component `mod` immediately followed by
`sodium`, and the result is the whole token, not `sodium`: the test
`startsWith("http")` is sensitive to case. -/
theorem normalizeModInput_upper_scheme_kept :
    plainUrlPathname "HTTPS://modrinth.com/mod/sodium" = some "/mod/sodium" ∧
    pathParts "/mod/sodium" = [] ++ "mod" :: "sodium" :: [] ∧
    isModOrProject "mod" = true ∧
    jsStartsWith (jsTrim "HTTPS://modrinth.com/mod/sodium") "http" = false ∧
    normalizeModInput plainUrlPathname "HTTPS://modrinth.com/mod/sodium" =
      some "HTTPS://modrinth.com/mod/sodium" ∧
    normalizeModInput plainUrlPathname "HTTPS://modrinth.com/mod/sodium" ≠
      some "sodium" := by
  decide

/-- C2 (amended): for a token that is not a URL (it does not start with `http`,
or the URL parser rejects it) and that has a character other than whitespace,
`normalizeModInput` returns the token without its leading and trailing
whitespace; for a token that is empty after trimming it returns `null`. -/
theorem normalizeModInput_non_url (urlPathname : String → Option String)
    (input : String)
    (hnot : jsStartsWith (jsTrim input) "http" = false ∨
      urlPathname (jsTrim input) = none) :
    (truthy (jsTrim input) = true →
      normalizeModInput urlPathname input = some (jsTrim input)) ∧
    (truthy (jsTrim input) = false → normalizeModInput urlPathname input = none) ∧
    (∃ pre post, input.data = pre ++ (jsTrim input).data ++ post ∧
      (∀ c ∈ pre, isJsWhitespace c = true) ∧ (∀ c ∈ post, isJsWhitespace c = true) ∧
      (∀ c, (jsTrim input).data.head? = some c → isJsWhitespace c = false) ∧
      (∀ c, (jsTrim input).data.getLast? = some c → isJsWhitespace c = false)) := by
  refine ⟨?_, ?_, jsTrim_spec input⟩
  · intro ht
    unfold normalizeModInput
    rcases hnot with h | h
    · simp [ht, h]
    · by_cases hs : jsStartsWith (jsTrim input) "http" = true
      · simp [ht, hs, h]
      · simp [ht, hs]
  · intro ht
    unfold normalizeModInput
    simp [ht]

/-- Witness of `normalizeModInput_non_url` on a bare slug with surrounding
blanks. -/
theorem normalizeModInput_non_url_witness :
    normalizeModInput plainUrlPathname "  distant-horizons\t" = some "distant-horizons" :=
  (normalizeModInput_non_url plainUrlPathname "  distant-horizons\t"
    (Or.inl (by decide))).1 (by decide)

/-- C2 as stated fails on a token of blanks: it is not a URL, its trimmed form
is the empty string, and the result is `null`, not the empty string. -/
theorem normalizeModInput_blank_is_null :
    jsStartsWith (jsTrim "  ") "http" = false ∧ jsTrim "  " = "" ∧
    normalizeModInput plainUrlPathname "  " = none ∧
    normalizeModInput plainUrlPathname "  " ≠ some (jsTrim "  ") := by
  decide

end AddMod

namespace Download

/-! ## modrinth_download.js: the choice of the latest version -/

theorem head_insertSorted {α : Type} (cmp : α → α → Int) (a : α) (l : List α) :
    (insertSorted cmp a l).head? =
      some (match l.head? with
        | none => a
        | some b => if cmp a b ≤ 0 then a else b) := by
  cases l with
  | nil => rfl
  | cons b t =>
    by_cases h : cmp a b ≤ 0 <;> simp [insertSorted, h]

theorem insertSorted_perm {α : Type} (cmp : α → α → Int) (a : α) (l : List α) :
    List.Perm (insertSorted cmp a l) (a :: l) := by
  induction l with
  | nil => exact List.Perm.refl _
  | cons b t ih =>
    by_cases h : cmp a b ≤ 0
    · simp [insertSorted, h]
    · simp only [insertSorted, h, if_false]
      exact (List.Perm.cons b ih).trans (List.Perm.swap a b t)

/-- The model of the built-in sort returns a rearrangement of its input. -/
theorem jsSort_perm {α : Type} (cmp : α → α → Int) (l : List α) :
    List.Perm (jsSort cmp l) l := by
  induction l with
  | nil => exact List.Perm.refl _
  | cons a t ih =>
    show List.Perm (insertSorted cmp a (jsSort cmp t)) (a :: t)
    exact (insertSorted_perm cmp a _).trans (List.Perm.cons a ih)

theorem insertSorted_sorted (parseIso : String → Int) (a : Version) (l : List Version)
    (hl : l.Pairwise (fun x y => parseIso y.date_published ≤ parseIso x.date_published)) :
    (insertSorted (byDateDesc parseIso) a l).Pairwise
      (fun x y => parseIso y.date_published ≤ parseIso x.date_published) := by
  induction l with
  | nil => simp [insertSorted]
  | cons b t ih =>
    rw [List.pairwise_cons] at hl
    by_cases h : byDateDesc parseIso a b ≤ 0
    · simp only [insertSorted, h, if_true]
      have hab : parseIso b.date_published ≤ parseIso a.date_published := by
        unfold byDateDesc at h; omega
      refine List.pairwise_cons.mpr ⟨?_, List.pairwise_cons.mpr hl⟩
      intro y hy
      rcases List.mem_cons.mp hy with rfl | hy
      · exact hab
      · exact le_trans (hl.1 y hy) hab
    · simp only [insertSorted, h, if_false]
      have hab : parseIso a.date_published < parseIso b.date_published := by
        unfold byDateDesc at h; omega
      refine List.pairwise_cons.mpr ⟨?_, ih hl.2⟩
      intro y hy
      have hy2 : y ∈ a :: t := (insertSorted_perm _ a t).subset hy
      rcases List.mem_cons.mp hy2 with rfl | hy2
      · exact le_of_lt hab
      · exact hl.1 y hy2

/-- The model of the built-in sort with the comparator of `getLatestVersion`
returns the versions from the most recent to the oldest. -/
theorem jsSort_sorted (parseIso : String → Int) (l : List Version) :
    (jsSort (byDateDesc parseIso) l).Pairwise
      (fun x y => parseIso y.date_published ≤ parseIso x.date_published) := by
  induction l with
  | nil => exact List.Pairwise.nil
  | cons a t ih => exact insertSorted_sorted parseIso a _ ih

/-- The head of the sorted list is the first version with the greatest
publish time. -/
theorem jsSort_head (parseIso : String → Int) (vs : List Version) (hne : vs ≠ []) :
    ∃ v pre post, (jsSort (byDateDesc parseIso) vs).head? = some v ∧
      vs = pre ++ v :: post ∧
      (∀ u ∈ pre, parseIso u.date_published < parseIso v.date_published) ∧
      (∀ u ∈ post, parseIso u.date_published ≤ parseIso v.date_published) := by
  induction vs with
  | nil => exact absurd rfl hne
  | cons a l ih =>
    have hs : jsSort (byDateDesc parseIso) (a :: l) =
        insertSorted (byDateDesc parseIso) a (jsSort (byDateDesc parseIso) l) := rfl
    by_cases hl : l = []
    · subst hl
      exact ⟨a, [], [], rfl, rfl, by simp, by simp⟩
    · obtain ⟨v, pre, post, hhead, hsplit, hpre, hpost⟩ := ih hl
      rw [hs, head_insertSorted, hhead]
      by_cases hc : byDateDesc parseIso a v ≤ 0
      · have hva : parseIso v.date_published ≤ parseIso a.date_published := by
          unfold byDateDesc at hc; omega
        refine ⟨a, [], l, by simp [hc], rfl, by simp, ?_⟩
        intro u hu
        rw [hsplit] at hu
        rcases List.mem_append.mp hu with hu | hu
        · exact le_trans (le_of_lt (hpre u hu)) hva
        · rcases List.mem_cons.mp hu with rfl | hu
          · exact hva
          · exact le_trans (hpost u hu) hva
      · have hav : parseIso a.date_published < parseIso v.date_published := by
          unfold byDateDesc at hc; omega
        refine ⟨v, a :: pre, post, by simp [hc], by simp [hsplit], ?_, hpost⟩
        intro u hu
        rcases List.mem_cons.mp hu with rfl | hu
        · exact hav
        · exact hpre u hu

/-- C5: when the registry answers with a non-empty list of versions,
`getLatestVersion` returns a version of that list whose publish time is at
least that of every version of the list, and every version in front of it in
the response is strictly older: among the most recent ones it is the first. -/
theorem getLatestVersion_latest (w : World) (log : List Event) (projectId : String)
    (gameVersion loader : Option String) (statusCode : Nat) (vs : List Version)
    (hreply : w.versions log projectId gameVersion loader =
      .response statusCode (.ok (some vs)))
    (hstatus : statusCode < 400) (hne : vs ≠ []) :
    ∃ v pre post,
      getLatestVersion w log projectId gameVersion loader = .ok (some v) ∧
      vs = pre ++ v :: post ∧ v ∈ vs ∧
      (∀ u ∈ vs, w.parseIso u.date_published ≤ w.parseIso v.date_published) ∧
      (∀ u ∈ pre, w.parseIso u.date_published < w.parseIso v.date_published) := by
  obtain ⟨v, pre, post, hhead, hsplit, hpre, hpost⟩ := jsSort_head w.parseIso vs hne
  refine ⟨v, pre, post, ?_, hsplit, by simp [hsplit], ?_, hpre⟩
  · have hlen : vs.length ≠ 0 := by
      intro h; exact hne (List.length_eq_zero.mp h)
    unfold getLatestVersion
    rw [hreply]
    simp [fetchJson, Nat.not_le.mpr hstatus, latestOf, hlen, hhead]
  · intro u hu
    rw [hsplit] at hu
    rcases List.mem_append.mp hu with hu | hu
    · exact le_of_lt (hpre u hu)
    · rcases List.mem_cons.mp hu with rfl | hu
      · exact le_refl _
      · exact hpost u hu

/-- Witness of `getLatestVersion_latest`: of two versions of the same day the
first one of the response is returned. -/
theorem getLatestVersion_latest_witness :
    ∃ v pre post,
      getLatestVersion demoWorld [] "AANobbMI" none none = .ok (some v) ∧
      demoVersions = pre ++ v :: post ∧ v ∈ demoVersions ∧
      (∀ u ∈ demoVersions,
        demoWorld.parseIso u.date_published ≤ demoWorld.parseIso v.date_published) ∧
      (∀ u ∈ pre,
        demoWorld.parseIso u.date_published < demoWorld.parseIso v.date_published) :=
  getLatestVersion_latest demoWorld [] "AANobbMI" none none 200 demoVersions
    (by rfl) (by decide) (by decide)

end Download

namespace Download

/-! ## modrinth_download.js: the main loop -/

/-- What one turn of the loop pushes to `results`. -/
theorem processQuery_ok (w : World) (args : Args) (output : String) (log : List Event)
    (query : String) (log1 : List Event) (entry : Entry)
    (h : processQuery w args output log query = (log1, .ok entry)) :
    entry.query = some query ∧
    (entry.status = some "not_found" ∨ entry.status = some "no_version" ∨
      entry.status = some "no_files" ∨ entry.status = some "download_failed" ∨
      (entry.status = some "downloaded" ∧ entry.file.isSome = true ∧
        entry.id.isSome = true)) := by
  unfold processQuery at h
  split at h
  · simp at h
  · simp only [Prod.mk.injEq, Except.ok.injEq] at h
    obtain ⟨_, rfl⟩ := h
    simp [Entry.ofQuery]
  · simp only at h
    split at h
    · simp at h
    · simp only [Prod.mk.injEq, Except.ok.injEq] at h
      obtain ⟨_, rfl⟩ := h
      simp [Entry.ofQuery, assignProject]
    · split at h
      · simp only [Prod.mk.injEq, Except.ok.injEq] at h
        obtain ⟨_, rfl⟩ := h
        simp [Entry.ofQuery, assignProject]
      · split at h
        · simp at h
        · split at h
          · simp only [Prod.mk.injEq, Except.ok.injEq] at h
            obtain ⟨_, rfl⟩ := h
            simp [Entry.ofQuery, assignProject]
          · simp only [Prod.mk.injEq, Except.ok.injEq] at h
            obtain ⟨_, rfl⟩ := h
            simp [Entry.ofQuery, assignProject]

/-- The loop appends one entry per identifier, in order, each of a known
shape. -/
theorem processMods_ok (w : World) (args : Args) (output : String) (mods : List String) :
    ∀ (log : List Event) (results : List Entry) (log1 : List Event) (results1 : List Entry),
      processMods w args output mods log results = .ok (log1, results1) →
      ∃ added, results1 = results ++ added ∧
        added.map (fun e => e.query) = mods.map some ∧
        ∀ e ∈ added,
          (e.status = some "not_found" ∨ e.status = some "no_version" ∨
            e.status = some "no_files" ∨ e.status = some "download_failed" ∨
            (e.status = some "downloaded" ∧ e.file.isSome = true ∧ e.id.isSome = true)) := by
  induction mods with
  | nil =>
    intro log results log1 results1 h
    simp only [processMods, Except.ok.injEq, Prod.mk.injEq] at h
    exact ⟨[], by simp [h.2], rfl, by simp⟩
  | cons query rest ih =>
    intro log results log1 results1 h
    unfold processMods at h
    split at h
    · simp at h
    · rename_i log2 entry hq
      obtain ⟨added, hres, hqueries, hall⟩ := ih log2 (results ++ [entry]) log1 results1 h
      obtain ⟨hquery, hshape⟩ := processQuery_ok w args output log query log2 entry hq
      refine ⟨entry :: added, by simp [hres], by simp [hquery, hqueries], ?_⟩
      intro e he
      rcases List.mem_cons.mp he with rfl | he
      · exact hshape
      · exact hall e he

/-- The report of a run of `main`, when there is one, was produced by the loop
over the chosen list, after the output directory was created, and was
written. -/
theorem main_report (w : World) (argv : List String) (report : List Entry)
    (h : (main w argv).report = some report) :
    ∃ args mods output log,
      parseArgs argv = some args ∧ selectMods w args = .mods mods ∧
      args.output = some output ∧
      processMods w args output mods [.mkdir output] [] = .ok (log, report) ∧
      main w argv =
        { exitCode :=
            if (report.filter (fun r => r.status != some "downloaded")).length > 0
            then 2 else 0,
          report := some report,
          log := log ++ [.writeReport (pathJoin output "modrinth_report.json") report] } := by
  unfold main at h ⊢
  cases hp : parseArgs argv with
  | none => simp [hp] at h
  | some args =>
    simp only [hp] at h ⊢
    cases hs : selectMods w args with
    | missingDefault => simp [hs] at h
    | threw m => simp [hs] at h
    | mods mods =>
      simp only [hs] at h ⊢
      unfold runWith at h ⊢
      cases ho : args.output with
      | none => simp [ho] at h
      | some output =>
        simp only [ho] at h ⊢
        cases hmk : w.mkdirSync output with
        | false => simp [hmk] at h
        | true =>
          simp only [hmk, Bool.not_true, Bool.false_eq_true, if_false] at h ⊢
          cases hl : processMods w args output mods [.mkdir output] [] with
          | error e => simp [hl] at h
          | ok r =>
            obtain ⟨log, results⟩ := r
            simp only [hl] at h ⊢
            cases hwr : w.writeFileSync (pathJoin output "modrinth_report.json") with
            | false => simp [hwr] at h
            | true =>
              simp only [hwr, Bool.not_true, Bool.false_eq_true, if_false,
                Option.some.injEq] at h ⊢
              subst h
              exact ⟨args, mods, output, log, rfl, hs, ho, hl, rfl⟩

end Download

namespace Download

theorem main_of_select (w : World) (argv : List String) (args : Args) (mods : List String)
    (hparse : parseArgs argv = some args) (hsel : selectMods w args = .mods mods) :
    main w argv = runWith w args mods := by
  unfold main
  simp [hparse, hsel]

/-- The queries of the written report are the identifiers of the chosen list,
in order. -/
theorem report_queries (w : World) (argv : List String) (args : Args) (mods : List String)
    (hparse : parseArgs argv = some args) (hsel : selectMods w args = .mods mods)
    (report : List Entry) (h : (main w argv).report = some report) :
    report.map (fun e => e.query) = mods.map some := by
  obtain ⟨args1, mods1, output, log, hp, hs, _, hloop, _⟩ := main_report w argv report h
  rw [hparse] at hp
  cases hp
  rw [hsel] at hs
  cases hs
  obtain ⟨added, hres, hq, _⟩ := processMods_ok w args output mods _ _ _ _ hloop
  simp only [List.nil_append] at hres
  rw [hres, hq]

/-- C3 (amended): the list file comes first.  For every command line whose
parsed `--mods-file` value is a non-empty path, the identifiers processed are
those loaded from that file, whatever `--mods` supplies; the inline list is
processed only when there is no such path and the inline list is non-empty. -/
theorem mod_source_precedence (w : World) (argv : List String) (args : Args)
    (hparse : parseArgs argv = some args) :
    (∀ file mods, args.modsFile = some file → truthy file = true →
        (if jsEndsWith file ".json" then loadModJson w file else loadModList w file) =
          .ok mods →
        main w argv = runWith w args mods ∧
        ∀ report, (main w argv).report = some report →
          report.map (fun e => e.query) = mods.map some) ∧
    (∀ inline, truthyOpt args.modsFile = false → args.mods = some inline → inline ≠ [] →
        main w argv = runWith w args inline ∧
        ∀ report, (main w argv).report = some report →
          report.map (fun e => e.query) = inline.map some) := by
  constructor
  · intro file mods hfile htruthy hload
    have hsel : selectMods w args = .mods mods := by
      unfold selectMods
      have ht : truthyOpt (some file) = true := htruthy
      simp only [hfile, ht, if_true, Option.getD_some]
      by_cases hj : jsEndsWith file ".json" = true
      · simp only [hj, if_true] at hload ⊢
        rw [hload]; rfl
      · simp only [hj] at hload ⊢
        simp only [Bool.false_eq_true, if_false] at hload ⊢
        rw [hload]; rfl
    exact ⟨main_of_select w argv args mods hparse hsel,
      fun report h => report_queries w argv args mods hparse hsel report h⟩
  · intro inline hno hinline hne
    have hlen : 0 < inline.length := List.length_pos.mpr hne
    have hsel : selectMods w args = .mods inline := by
      unfold selectMods
      simp [hno, hinline, hlen]
    exact ⟨main_of_select w argv args inline hparse hsel,
      fun report h => report_queries w argv args inline hparse hsel report h⟩

/-- Witness of `mod_source_precedence`: with `--mods inline-a inline-b` and
`--mods-file list.txt` the run is the one over the content of the file. -/
theorem mod_source_precedence_witness :
    main demoWorld argvBoth =
      runWith demoWorld
        { Args.defaults with mods := some ["inline-a", "inline-b"],
                             modsFile := some "list.txt" }
        ["from-file"] :=
  ((mod_source_precedence demoWorld argvBoth
    { Args.defaults with mods := some ["inline-a", "inline-b"], modsFile := some "list.txt" }
    (by decide)).1 "list.txt" ["from-file"] rfl (by decide) (by rfl)).1

/-- C3 as stated fails: the command line `argvBoth` supplies the inline list
`inline-a inline-b` and the list file `list.txt`, and the one identifier
processed is the one of the file. -/
theorem inline_list_loses_to_file :
    parseArgs argvBoth =
      some { Args.defaults with mods := some ["inline-a", "inline-b"],
                                modsFile := some "list.txt" } ∧
    selectMods demoWorld
      { Args.defaults with mods := some ["inline-a", "inline-b"],
                           modsFile := some "list.txt" } = .mods ["from-file"] ∧
    (main demoWorld argvBoth).report =
      some [{ Entry.ofQuery "from-file" with status := some "not_found" }] ∧
    (main demoWorld argvBoth).log =
      [.mkdir "mods", .getProject "from-file", .search "from-file",
       .writeReport "mods/modrinth_report.json"
         [{ Entry.ofQuery "from-file" with status := some "not_found" }]] := by
  decide

/-- C4, what the code does: a `--mods-file` text list whose lines are all
blank or `#` comments yields an empty list, and the run then creates the
output directory, writes an empty report and ends with status 0 (not with a
non-zero status); it makes no request.  The status is 1 only when creating
the directory or writing the report throws. -/
theorem empty_text_list_exits_zero (w : World) (argv : List String) (args : Args)
    (file raw output : String)
    (hparse : parseArgs argv = some args) (hfile : args.modsFile = some file)
    (htruthy : truthy file = true) (hext : jsEndsWith file ".json" = false)
    (hread : w.readFile file = some raw)
    (hblank : ∀ line ∈ jsSplit raw '\n',
      truthy (jsTrim line) = false ∨ jsStartsWith (jsTrim line) "#" = true)
    (hout : args.output = some output) :
    (w.mkdirSync output = true →
      w.writeFileSync (pathJoin output "modrinth_report.json") = true →
      main w argv =
        { exitCode := 0, report := some [],
          log := [.mkdir output,
                  .writeReport (pathJoin output "modrinth_report.json") []] }) ∧
    (w.mkdirSync output = false →
      main w argv = { exitCode := 1, report := none, log := [] }) ∧
    (w.mkdirSync output = true →
      w.writeFileSync (pathJoin output "modrinth_report.json") = false →
      main w argv = { exitCode := 1, report := none, log := [.mkdir output] }) ∧
    ∀ ev ∈ (main w argv).log, ev.isRequest = false := by
  have hload : loadModList w file = .ok [] := by
    unfold loadModList
    simp only [hread]
    congr 1
    rw [List.filter_eq_nil_iff]
    intro line hline
    obtain ⟨l0, hl0, rfl⟩ := List.mem_map.mp hline
    rcases hblank l0 hl0 with h | h <;> simp [h]
  have hsel : selectMods w args = .mods [] := by
    unfold selectMods
    have ht : truthyOpt (some file) = true := htruthy
    simp only [hfile, ht, if_true, Option.getD_some, hext, Bool.false_eq_true, if_false]
    rw [hload]; rfl
  have hmain : main w argv =
      (if w.mkdirSync output = false then { exitCode := 1, report := none, log := [] }
       else if w.writeFileSync (pathJoin output "modrinth_report.json") = false then
         { exitCode := 1, report := none, log := [.mkdir output] }
       else
         { exitCode := 0, report := some [],
           log := [.mkdir output,
                   .writeReport (pathJoin output "modrinth_report.json") []] }) := by
    rw [main_of_select w argv args [] hparse hsel]
    unfold runWith
    simp [hout, processMods]
  refine ⟨?_, ?_, ?_, ?_⟩
  · intro hmk hwr
    rw [hmain]; simp [hmk, hwr]
  · intro hmk
    rw [hmain]; simp [hmk]
  · intro hmk hwr
    rw [hmain]; simp [hmk, hwr]
  · rw [hmain]
    intro ev hev
    cases hmk : w.mkdirSync output with
    | false => simp [hmk] at hev
    | true =>
      cases hwr : w.writeFileSync (pathJoin output "modrinth_report.json") with
      | false =>
        simp only [hmk, hwr, Bool.true_eq_false, if_false, if_true, List.mem_singleton] at hev
        subst hev; rfl
      | true =>
        simp only [hmk, hwr, Bool.true_eq_false, if_false, List.mem_cons,
          List.mem_singleton, List.not_mem_nil, or_false] at hev
        rcases hev with rfl | rfl <;> rfl

/-- Witness of `empty_text_list_exits_zero` on the comment-only `mods.txt`. -/
theorem empty_text_list_exits_zero_witness :
    main demoWorld argvEmptyList =
      { exitCode := 0, report := some [],
        log := [.mkdir "mods", .writeReport (pathJoin "mods" "modrinth_report.json") []] } :=
  (empty_text_list_exits_zero demoWorld argvEmptyList
    { Args.defaults with modsFile := some "mods.txt" } "mods.txt" "# nothing yet\n\n   \n"
    "mods" (by decide) rfl (by decide) (by decide) (by decide) (by decide) rfl).1
    (by decide) (by decide)

/-- C6: every entry of a report written by the downloader has one of the five
statuses, and an entry with status `downloaded` has `file` and `id`. -/
theorem report_entries_wellformed (w : World) (argv : List String) (report : List Entry)
    (h : (main w argv).report = some report) :
    ∀ e ∈ report,
      (e.status = some "not_found" ∨ e.status = some "no_version" ∨
        e.status = some "no_files" ∨ e.status = some "download_failed" ∨
        e.status = some "downloaded") ∧
      (e.status = some "downloaded" → e.file.isSome = true ∧ e.id.isSome = true) := by
  obtain ⟨args, mods, output, log, _, _, _, hloop, _⟩ := main_report w argv report h
  obtain ⟨added, hres, _, hall⟩ := processMods_ok w args output mods _ _ _ _ hloop
  simp only [List.nil_append] at hres
  subst hres
  intro e he
  rcases hall e he with h1 | h1 | h1 | h1 | ⟨h1, h2, h3⟩
  · exact ⟨Or.inl h1, by simp [h1]⟩
  · exact ⟨Or.inr (Or.inl h1), by simp [h1]⟩
  · exact ⟨Or.inr (Or.inr (Or.inl h1)), by simp [h1]⟩
  · exact ⟨Or.inr (Or.inr (Or.inr (Or.inl h1))), by simp [h1]⟩
  · exact ⟨Or.inr (Or.inr (Or.inr (Or.inr h1))), fun _ => ⟨h2, h3⟩⟩

/-- Witness of `report_entries_wellformed` on the downloaded entry of a run
with one download and one miss. -/
theorem report_entries_wellformed_witness :
    (demoDownloaded.status = some "not_found" ∨
      demoDownloaded.status = some "no_version" ∨
      demoDownloaded.status = some "no_files" ∨
      demoDownloaded.status = some "download_failed" ∨
      demoDownloaded.status = some "downloaded") ∧
    (demoDownloaded.file.isSome = true ∧ demoDownloaded.id.isSome = true) :=
  ⟨(report_entries_wellformed demoWorld argvInline demoReport (by decide)
      demoDownloaded (by simp [demoReport])).1,
   (report_entries_wellformed demoWorld argvInline demoReport (by decide)
      demoDownloaded (by simp [demoReport])).2 rfl⟩

/-- C7: when the loop over the identifiers ends and the write of the report
succeeds, the report is written as the last effect of the run, and the exit
status is 2 exactly when some entry has a status other than `downloaded`, and
0 exactly when every entry is `downloaded`.  When creating the output
directory throws, the loop is never reached; when the write of the report
throws, the run ends with status 1 and no report. -/
theorem exit_status_reflects_report (w : World) (argv : List String) :
    (∀ args mods output log results,
        parseArgs argv = some args → selectMods w args = .mods mods →
        args.output = some output → w.mkdirSync output = true →
        processMods w args output mods [.mkdir output] [] = .ok (log, results) →
        (w.writeFileSync (pathJoin output "modrinth_report.json") = true →
          (main w argv).report = some results ∧
          (main w argv).log =
            log ++ [.writeReport (pathJoin output "modrinth_report.json") results] ∧
          ((main w argv).exitCode = 2 ↔ ∃ e ∈ results, e.status ≠ some "downloaded") ∧
          ((main w argv).exitCode = 0 ↔ ∀ e ∈ results, e.status = some "downloaded")) ∧
        (w.writeFileSync (pathJoin output "modrinth_report.json") = false →
          main w argv = { exitCode := 1, report := none, log := log })) ∧
    (∀ args mods output,
        parseArgs argv = some args → selectMods w args = .mods mods →
        args.output = some output → w.mkdirSync output = false →
        main w argv = { exitCode := 1, report := none, log := [] }) ∧
    (∀ report, (main w argv).report = some report →
        ((main w argv).exitCode = 2 ↔ ∃ e ∈ report, e.status ≠ some "downloaded") ∧
        ((main w argv).exitCode = 0 ↔ ∀ e ∈ report, e.status = some "downloaded") ∧
        ∃ path, (main w argv).log.getLast? = some (.writeReport path report)) := by
  have key : ∀ report, (main w argv).report = some report →
      ((main w argv).exitCode = 2 ↔ ∃ e ∈ report, e.status ≠ some "downloaded") ∧
      ((main w argv).exitCode = 0 ↔ ∀ e ∈ report, e.status = some "downloaded") ∧
      ∃ path, (main w argv).log.getLast? = some (.writeReport path report) := by
    intro report h
    obtain ⟨args, mods, output, log, _, _, _, _, hmain⟩ := main_report w argv report h
    rw [hmain]
    dsimp only
    refine ⟨?_, ?_, ⟨pathJoin output "modrinth_report.json", by simp⟩⟩
    · constructor
      · intro hcode
        by_contra hex
        have hnil : report.filter (fun r => r.status != some "downloaded") = [] := by
          rw [List.filter_eq_nil_iff]
          intro e he
          by_contra hne
          exact hex ⟨e, he, by simpa using hne⟩
        simp [hnil] at hcode
      · rintro ⟨e, he, hne⟩
        have hpos : 0 < (report.filter (fun r => r.status != some "downloaded")).length :=
          List.length_pos_of_mem (List.mem_filter.mpr ⟨he, by simpa using hne⟩)
        simp [hpos]
    · constructor
      · intro hcode e he
        by_contra hne
        have hpos : 0 < (report.filter (fun r => r.status != some "downloaded")).length :=
          List.length_pos_of_mem (List.mem_filter.mpr ⟨he, by simpa using hne⟩)
        simp [hpos] at hcode
      · intro hall
        have hnil : report.filter (fun r => r.status != some "downloaded") = [] := by
          rw [List.filter_eq_nil_iff]
          intro e he
          simp [hall e he]
        simp [hnil]
  refine ⟨?_, ?_, key⟩
  · intro args mods output log results hparse hsel hout hmk hloop
    constructor
    · intro hwr
      have hrep : (main w argv).report = some results := by
        rw [main_of_select w argv args mods hparse hsel]
        unfold runWith
        simp [hout, hmk, hloop, hwr]
      have hlog : (main w argv).log =
          log ++ [.writeReport (pathJoin output "modrinth_report.json") results] := by
        rw [main_of_select w argv args mods hparse hsel]
        unfold runWith
        simp [hout, hmk, hloop, hwr]
      exact ⟨hrep, hlog, (key results hrep).1, (key results hrep).2.1⟩
    · intro hwr
      rw [main_of_select w argv args mods hparse hsel]
      unfold runWith
      simp [hout, hmk, hloop, hwr]
  · intro args mods output hparse hsel hout hmk
    rw [main_of_select w argv args mods hparse hsel]
    unfold runWith
    simp [hout, hmk]

/-- Witness of `exit_status_reflects_report` on a run with one download and one
miss: the report is written last and the status is 2. -/
theorem exit_status_reflects_report_witness :
    ((main demoWorld argvInline).report = some demoReport ∧
      (main demoWorld argvInline).log =
        demoLog ++ [.writeReport (pathJoin "mods" "modrinth_report.json") demoReport] ∧
      ((main demoWorld argvInline).exitCode = 2 ↔
        ∃ e ∈ demoReport, e.status ≠ some "downloaded") ∧
      ((main demoWorld argvInline).exitCode = 0 ↔
        ∀ e ∈ demoReport, e.status = some "downloaded")) ∧
    (main demoWorld argvInline).exitCode = 2 :=
  ⟨((exit_status_reflects_report demoWorld argvInline).1
      { Args.defaults with mods := some ["sodium", "no-such-mod"] }
      ["sodium", "no-such-mod"] "mods" demoLog demoReport
      (by decide) (by decide) rfl (by decide) (by rfl)).1 (by decide),
   ((exit_status_reflects_report demoWorld argvInline).2.2 demoReport (by decide)).1.mpr
      ⟨{ Entry.ofQuery "no-such-mod" with status := some "not_found" },
        by simp [demoReport], by decide⟩⟩

end Download

namespace Pack

/-! ## modrinth_pack.js: paths of the manifest -/

/-- C8, what the code does: for a report in which two downloaded entries name
the same file, pack assembly succeeds and the manifest lists the same path
twice. -/
theorem same_file_twice_in_manifest :
    (main (demoWorld twiceReport none) argvPlain).exitCode = 0 ∧
    (main (demoWorld twiceReport none) argvPlain).error = none ∧
    (main (demoWorld twiceReport none) argvPlain).index.map
        (fun index => index.files.map (fun file => file.path)) =
      some ["mods/sodium-0.6.0.jar", "mods/sodium-0.6.0.jar"] := by
  decide

/-- The first loop only queries the registry and the file system. -/
theorem reportLoop_no_write (w : World) (args : Args) (modsDir : String)
    (entries : List Entry) :
    ∀ (log : List Event) (files : List FileRecord),
      (∀ ev ∈ log, ev.isWrite = false) →
      ∀ ev ∈ logOf (reportLoop w args modsDir entries log files), ev.isWrite = false := by
  induction entries with
  | nil => intro log files hlog; simpa [reportLoop, logOf] using hlog
  | cons entry rest ih =>
    intro log files hlog
    have h1 : ∀ ev ∈ log ++ [Event.getVersions (entry.id.getD "") args.gameVersion
        args.loader], ev.isWrite = false := by
      intro ev hev
      rcases List.mem_append.mp hev with hev | hev
      · exact hlog ev hev
      · simp at hev; subst hev; rfl
    have h2 : ∀ ev ∈ log ++ [Event.getVersions (entry.id.getD "") args.gameVersion
        args.loader] ++ [Event.stat (pathJoin modsDir (entry.file.getD ""))],
        ev.isWrite = false := by
      intro ev hev
      rcases List.mem_append.mp hev with hev | hev
      · exact h1 ev hev
      · simp at hev; subst hev; rfl
    unfold reportLoop
    by_cases hskip : (!truthyOpt entry.id || !truthyOpt entry.file) = true
    · simp only [hskip, if_true]
      exact ih log files hlog
    · simp only [hskip]
      simp only [Bool.false_eq_true, if_false]
      cases hi : getFileInfo w log (entry.id.getD "") (entry.file.getD "")
          args.gameVersion args.loader with
      | error m => simpa [logOf] using h1
      | ok r =>
        cases r with
        | none => simpa [logOf] using h1
        | some info =>
          cases hs : w.statSize (pathJoin modsDir (entry.file.getD "")) with
          | none => simpa [logOf, hs] using h2
          | some size =>
            simp only [hs]
            exact ih _ _ h2

/-- The first loop keeps the records it was given and adds the path of every
entry that has an `id` and a `file`. -/
theorem reportLoop_paths (w : World) (args : Args) (modsDir : String)
    (entries : List Entry) :
    ∀ (log : List Event) (files : List FileRecord) (log1 : List Event)
      (files1 : List FileRecord),
      reportLoop w args modsDir entries log files = .ok (log1, files1) →
      (∀ f ∈ files, f ∈ files1) ∧
      ∀ entry ∈ entries, truthyOpt entry.id = true → ∀ name, entry.file = some name →
        truthy name = true → ∃ f ∈ files1, f.path = "mods/" ++ name := by
  induction entries with
  | nil =>
    intro log files log1 files1 h
    simp only [reportLoop, Except.ok.injEq, Prod.mk.injEq] at h
    obtain ⟨_, rfl⟩ := h
    exact ⟨fun f hf => hf, by simp⟩
  | cons entry rest ih =>
    intro log files log1 files1 h
    unfold reportLoop at h
    split at h
    · rename_i hskip
      obtain ⟨hkeep, hrest⟩ := ih log files log1 files1 h
      refine ⟨hkeep, ?_⟩
      intro e he hid name hname htruthy
      rcases List.mem_cons.mp he with rfl | he
      · have hfile : truthyOpt e.file = true := by simp [hname, truthyOpt, htruthy]
        simp [hid, hfile] at hskip
      · exact hrest e he hid name hname htruthy
    · dsimp only at h
      split at h
      · simp at h
      · simp at h
      · split at h
        · simp at h
        · obtain ⟨hkeep, hrest⟩ := ih _ _ log1 files1 h
          refine ⟨fun f hf => hkeep f (by simp [hf]), ?_⟩
          intro e he hid name hname htruthy
          rcases List.mem_cons.mp he with rfl | he
          · refine ⟨_, hkeep _ (List.mem_append_right _ (List.mem_singleton.mpr rfl)), ?_⟩
            simp [hname]
          · exact hrest e he hid name hname htruthy

/-- The first loop ends without an exception when the registry has the
metadata of every entry and every local file exists. -/
theorem reportLoop_succeeds (w : World) (args : Args) (modsDir : String)
    (entries : List Entry)
    (hstat : ∀ p, ∃ size, w.statSize p = some size)
    (hinfo : ∀ log, ∀ entry ∈ entries, ∃ info,
      getFileInfo w log (entry.id.getD "") (entry.file.getD "") args.gameVersion
        args.loader = .ok (some info)) :
    ∀ (log : List Event) (files : List FileRecord),
      ∃ log1 files1, reportLoop w args modsDir entries log files = .ok (log1, files1) := by
  induction entries with
  | nil => intro log files; exact ⟨log, files, rfl⟩
  | cons entry rest ih =>
    have ih2 := ih (fun log e he => hinfo log e (List.mem_cons_of_mem _ he))
    intro log files
    unfold reportLoop
    split
    · exact ih2 log files
    · obtain ⟨info, hi⟩ := hinfo log entry (List.mem_cons_self _ _)
      obtain ⟨size, hs⟩ := hstat (pathJoin modsDir (entry.file.getD ""))
      simp only [hi, hs]
      exact ih2 _ _

/-- The second loop only queries the file system. -/
theorem externalLoop_no_write (w : World) (modsDir : String)
    (entries : List ExternalEntry) :
    ∀ (log : List Event) (files : List FileRecord),
      (∀ ev ∈ log, ev.isWrite = false) →
      ∀ ev ∈ logOf (externalLoop w modsDir entries log files), ev.isWrite = false := by
  induction entries with
  | nil => intro log files hlog; simpa [externalLoop, logOf] using hlog
  | cons entry rest ih =>
    intro log files hlog
    unfold externalLoop
    cases hn : normalizeExternalEntry entry modsDir with
    | error m => simpa [logOf] using hlog
    | ok normalized =>
      have h1 : ∀ ev ∈ log ++ [Event.stat normalized.localPath], ev.isWrite = false := by
        intro ev hev
        rcases List.mem_append.mp hev with hev | hev
        · exact hlog ev hev
        · simp at hev; subst hev; rfl
      have h2 : ∀ ev ∈ log ++ [Event.stat normalized.localPath] ++
          [Event.hashFile normalized.localPath "sha1"], ev.isWrite = false := by
        intro ev hev
        rcases List.mem_append.mp hev with hev | hev
        · exact h1 ev hev
        · simp at hev; subst hev; rfl
      have h3 : ∀ ev ∈ log ++ [Event.stat normalized.localPath] ++
          [Event.hashFile normalized.localPath "sha1"] ++
          [Event.hashFile normalized.localPath "sha512"], ev.isWrite = false := by
        intro ev hev
        rcases List.mem_append.mp hev with hev | hev
        · exact h2 ev hev
        · simp at hev; subst hev; rfl
      simp only
      cases hs : w.statSize normalized.localPath with
      | none => simpa [logOf] using h1
      | some size =>
        simp only
        by_cases hdup : (files.any (fun file => file.path = "mods/" ++ normalized.filename)) = true
        · simp only [hdup, if_true]
          simpa [logOf] using h1
        · simp only [hdup]
          simp only [Bool.false_eq_true, if_false]
          cases h1h : w.hashFile normalized.localPath "sha1" with
          | error m => simpa [logOf] using h2
          | ok sha1 =>
            cases h5h : w.hashFile normalized.localPath "sha512" with
            | error m => simpa [logOf] using h3
            | ok sha512 =>
              simp only
              exact ih _ _ h3

end Pack

namespace Pack

theorem normalizeExternalEntry_filename (entry : ExternalEntry) (modsDir : String)
    (normalized : Normalized)
    (h : normalizeExternalEntry entry modsDir = .ok normalized) :
    normalized.filename = pathBasename (jsTrim ((jsOr entry.file (some "")).getD "")) := by
  unfold normalizeExternalEntry at h
  by_cases hf : truthy (jsTrim ((jsOr entry.file (some "")).getD "")) = true
  · by_cases hu : truthy (jsTrim ((jsOr entry.url (some "")).getD "")) = true
    · simp only [hf, hu, Bool.not_true, Bool.false_eq_true, if_false, Except.ok.injEq] at h
      rw [← h]
    · simp [hf, hu] at h
  · simp [hf] at h

theorem normalizeExternalEntry_ok (entry : ExternalEntry) (modsDir : String)
    (hfile : truthy (jsTrim ((jsOr entry.file (some "")).getD "")) = true)
    (hurl : truthy (jsTrim ((jsOr entry.url (some "")).getD "")) = true) :
    ∃ normalized, normalizeExternalEntry entry modsDir = .ok normalized := by
  unfold normalizeExternalEntry
  simp [hfile, hurl]

/-- The second loop throws when an external entry has the base name of a file
that is already in the list; with every local file present and readable and
every external entry carrying `file` and `url`, what it throws is the
duplicate-path error. -/
theorem externalLoop_duplicate (w : World) (modsDir name : String)
    (entries : List ExternalEntry) :
    (∃ x ∈ entries, pathBasename (jsTrim ((jsOr x.file (some "")).getD "")) = name) →
    ∀ (log : List Event) (files : List FileRecord),
      (∃ f ∈ files, f.path = "mods/" ++ name) →
      ∃ log1 message, externalLoop w modsDir entries log files = .error (log1, message) ∧
        ((∀ p, ∃ size, w.statSize p = some size) →
          (∀ p algorithm, ∃ digest, w.hashFile p algorithm = .ok digest) →
          (∀ y ∈ entries, truthy (jsTrim ((jsOr y.file (some "")).getD "")) = true ∧
            truthy (jsTrim ((jsOr y.url (some "")).getD "")) = true) →
          ∃ p, message = "Duplicate mod file in pack: " ++ p) := by
  induction entries with
  | nil => rintro ⟨x, hx, _⟩; simp at hx
  | cons entry rest ih =>
    rintro ⟨x, hx, hbase⟩ log files hfiles
    unfold externalLoop
    cases hn : normalizeExternalEntry entry modsDir with
    | error m =>
      refine ⟨log, m, rfl, ?_⟩
      intro _ _ hwf
      obtain ⟨hf, hu⟩ := hwf entry (List.mem_cons_self _ _)
      obtain ⟨n, hn2⟩ := normalizeExternalEntry_ok entry modsDir hf hu
      rw [hn] at hn2; cases hn2
    | ok normalized =>
      simp only
      cases hs : w.statSize normalized.localPath with
      | none =>
        refine ⟨_, _, rfl, ?_⟩
        intro hstat _ _
        obtain ⟨size, hsize⟩ := hstat normalized.localPath
        rw [hs] at hsize; cases hsize
      | some size =>
        simp only
        by_cases hdup :
            (files.any (fun file => file.path = "mods/" ++ normalized.filename)) = true
        · simp only [hdup, if_true]
          exact ⟨_, _, rfl, fun _ _ _ => ⟨_, rfl⟩⟩
        · have hne : entry ≠ x := by
            rintro rfl
            apply hdup
            rw [normalizeExternalEntry_filename entry modsDir normalized hn, hbase]
            obtain ⟨f, hf, hp⟩ := hfiles
            exact List.any_eq_true.mpr ⟨f, hf, by simp [hp]⟩
          have hxr : ∃ x ∈ rest,
              pathBasename (jsTrim ((jsOr x.file (some "")).getD "")) = name := by
            rcases List.mem_cons.mp hx with h | h
            · exact absurd h.symm hne
            · exact ⟨x, h, hbase⟩
          simp only [hdup]
          simp only [Bool.false_eq_true, if_false]
          cases h1 : w.hashFile normalized.localPath "sha1" with
          | error m =>
            refine ⟨_, m, rfl, ?_⟩
            intro _ hhash _
            obtain ⟨d, hd⟩ := hhash normalized.localPath "sha1"
            rw [h1] at hd; cases hd
          | ok sha1 =>
            cases h5 : w.hashFile normalized.localPath "sha512" with
            | error m =>
              refine ⟨_, m, rfl, ?_⟩
              intro _ hhash _
              obtain ⟨d, hd⟩ := hhash normalized.localPath "sha512"
              rw [h5] at hd; cases hd
            | ok sha512 =>
              simp only
              have hfiles2 : ∀ extra : List FileRecord,
                  ∃ f ∈ files ++ extra, f.path = "mods/" ++ name := by
                intro extra
                obtain ⟨f, hf, hp⟩ := hfiles
                exact ⟨f, List.mem_append_left _ hf, hp⟩
              obtain ⟨log1, message, hres, hcoop⟩ := ih hxr _ _ (hfiles2 _)
              refine ⟨log1, message, hres, ?_⟩
              intro hstat hhash hwf
              exact hcoop hstat hhash (fun y hy => hwf y (List.mem_cons_of_mem _ hy))

end Pack

namespace Pack

/-- C9 (amended): when the report has a downloaded entry that carries a
project id and names the file `name`, and the external-mods list has an entry
whose base file name is `name`, pack assembly ends with status 1 and without
an index, and nothing of the staging directory, the manifest or the archive
was written.  When moreover the steps before the check succeed (the registry
has the metadata of every downloaded entry, every local file exists and can be
read, every external entry carries `file` and `url`), the exception is the
duplicate-path error. -/
theorem duplicate_with_external_is_fatal (w : World) (argv : List String) (args : Args)
    (reportArg : String) (report : List Entry) (external : List ExternalEntry)
    (entry : Entry) (x : ExternalEntry) (name : String)
    (hparse : parseArgs argv = some args)
    (hreportArg : args.report = some reportArg)
    (hreport : w.readReport (pathResolve w.cwd reportArg) = .ok report)
    (hexternal : ∀ p, args.external = some p →
      loadExternalMods w (pathResolve w.cwd p) = .ok external)
    (hentry : entry ∈ report) (hstatus : entry.status = some "downloaded")
    (hid : truthyOpt entry.id = true) (hfile : entry.file = some name)
    (hname : truthy name = true)
    (hx : x ∈ external)
    (hbase : pathBasename (jsTrim ((jsOr x.file (some "")).getD "")) = name) :
    ((main w argv).exitCode = 1 ∧ (main w argv).index = none ∧
      ∀ ev ∈ (main w argv).log, ev.isWrite = false) ∧
    (args.modsDir ≠ none → args.external ≠ none →
      (∀ p, ∃ size, w.statSize p = some size) →
      (∀ p algorithm, ∃ digest, w.hashFile p algorithm = .ok digest) →
      (∀ log, ∀ e ∈ report.filter (fun e => e.status = some "downloaded"), ∃ info,
        getFileInfo w log (e.id.getD "") (e.file.getD "") args.gameVersion args.loader =
          .ok (some info)) →
      (∀ y ∈ external, truthy (jsTrim ((jsOr y.file (some "")).getD "")) = true ∧
        truthy (jsTrim ((jsOr y.url (some "")).getD "")) = true) →
      ∃ p, (main w argv).error = some ("Duplicate mod file in pack: " ++ p)) := by
  have hmain : main w argv = runWith w args := by
    unfold main; rw [hparse]
  rw [hmain]
  have hmem : entry ∈ report.filter (fun e => e.status = some "downloaded") :=
    List.mem_filter.mpr ⟨hentry, by simp [hstatus]⟩
  have hlen : (report.filter (fun e => e.status = some "downloaded")).length ≠ 0 := by
    intro h0
    rw [List.length_eq_zero.mp h0] at hmem
    simp at hmem
  unfold runWith
  simp only [hreportArg]
  cases hmd : args.modsDir with
  | none => exact ⟨⟨rfl, rfl, by simp⟩, fun h => absurd rfl h⟩
  | some modsDirArg =>
    simp only [hreport, hlen, if_false]
    have hnw := reportLoop_no_write w args (pathResolve w.cwd modsDirArg)
      (report.filter (fun e => e.status = some "downloaded")) [] [] (by simp)
    cases hloop : reportLoop w args (pathResolve w.cwd modsDirArg)
        (report.filter (fun e => e.status = some "downloaded")) [] [] with
    | error r =>
      obtain ⟨log, message⟩ := r
      rw [hloop] at hnw
      refine ⟨⟨rfl, rfl, hnw⟩, ?_⟩
      intro _ _ hstat _ hinfo _
      obtain ⟨log1, files1, hok⟩ := reportLoop_succeeds w args (pathResolve w.cwd modsDirArg)
        (report.filter (fun e => e.status = some "downloaded")) hstat hinfo [] []
      rw [hloop] at hok; cases hok
    | ok r =>
      obtain ⟨log1, files1⟩ := r
      rw [hloop] at hnw
      simp only
      cases hext : args.external with
      | none => exact ⟨⟨rfl, rfl, hnw⟩, fun _ h => absurd rfl h⟩
      | some externalArg =>
        simp only [hexternal externalArg hext]
        obtain ⟨_, hpaths⟩ := reportLoop_paths w args (pathResolve w.cwd modsDirArg)
          (report.filter (fun e => e.status = some "downloaded")) [] [] log1 files1 hloop
        have hfiles := hpaths entry hmem hid name hfile hname
        obtain ⟨log2, message, hres, hcoop⟩ :=
          externalLoop_duplicate w (pathResolve w.cwd modsDirArg) name external
            ⟨x, hx, hbase⟩ log1 files1 hfiles
        have hnw2 := externalLoop_no_write w (pathResolve w.cwd modsDirArg) external
          log1 files1 hnw
        rw [hres] at hnw2
        rw [hres]
        refine ⟨⟨rfl, rfl, hnw2⟩, ?_⟩
        intro _ _ hstat hhash _ hwf
        obtain ⟨p, hp⟩ := hcoop hstat hhash hwf
        exact ⟨p, by rw [hp]⟩

/-- Witness of `duplicate_with_external_is_fatal`: a report with one downloaded
entry and an external entry for a local copy of the same file name. -/
theorem duplicate_with_external_is_fatal_witness :
    ((main (demoWorld [sodiumEntry "sodium" "slug"] (some [sodiumExternal]))
        argvPlain).exitCode = 1 ∧
      (main (demoWorld [sodiumEntry "sodium" "slug"] (some [sodiumExternal]))
        argvPlain).index = none ∧
      ∀ ev ∈ (main (demoWorld [sodiumEntry "sodium" "slug"] (some [sodiumExternal]))
        argvPlain).log, ev.isWrite = false) ∧
    ∃ p, (main (demoWorld [sodiumEntry "sodium" "slug"] (some [sodiumExternal]))
        argvPlain).error = some ("Duplicate mod file in pack: " ++ p) :=
  have h := duplicate_with_external_is_fatal
    (demoWorld [sodiumEntry "sodium" "slug"] (some [sodiumExternal])) argvPlain
    Args.defaults "mods/modrinth_report.json" [sodiumEntry "sodium" "slug"]
    [sodiumExternal] (sodiumEntry "sodium" "slug") sodiumExternal "sodium-0.6.0.jar"
    (by decide) rfl rfl
    (by intro p hp; cases hp; rfl)
    (by simp) rfl (by decide) rfl (by decide) (by simp) (by decide)
  ⟨h.1, h.2 (by decide) (by decide) (fun _ => ⟨1024, rfl⟩)
    (fun _ algorithm => ⟨algorithm ++ "-digest", rfl⟩)
    (by
      intro log e he
      have he2 : e = sodiumEntry "sodium" "slug" := by
        simpa [sodiumEntry] using he
      subst he2
      exact ⟨{ filename := "sodium-0.6.0.jar", url := "https://cdn/s060",
               primary := true, sha1 := "c1", sha512 := "c5" }, by rfl⟩)
    (by
      intro y hy
      have hy2 : y = sodiumExternal := by simpa using hy
      subst hy2
      exact ⟨by decide, by decide⟩)⟩

/-- C9 as stated fails: the report has a downloaded entry that names
`sodium-0.6.0.jar` but has no project id, the external list has an entry with
that base file name, and pack assembly ends with status 0: the loop over the
report skips the entry, so the manifest holds the path once, from the external
entry, and the staging directory, the manifest and the archive are written. -/
theorem entry_without_id_builds_pack :
    noIdEntry ∈ [noIdEntry] ∧ noIdEntry.status = some "downloaded" ∧
    noIdEntry.file = some "sodium-0.6.0.jar" ∧
    sodiumExternal ∈ [sodiumExternal] ∧
    pathBasename (jsTrim ((jsOr sodiumExternal.file (some "")).getD "")) =
      "sodium-0.6.0.jar" ∧
    (main (demoWorld [noIdEntry] (some [sodiumExternal])) argvPlain).exitCode = 0 ∧
    (main (demoWorld [noIdEntry] (some [sodiumExternal])) argvPlain).error = none ∧
    (main (demoWorld [noIdEntry] (some [sodiumExternal])) argvPlain).index.map
        (fun index => index.files.map (fun file => (file.path, file.downloads))) =
      some [("mods/sodium-0.6.0.jar", ["https://example.org/sodium.jar"])] ∧
    (main (demoWorld [noIdEntry] (some [sodiumExternal])) argvPlain).log.filter
        (fun ev => ev.isWrite) =
      [.mkdtemp "/tmp/mrpack-Ab12Cd",
       .writeIndex "/tmp/mrpack-Ab12Cd/modrinth.index.json"
         { formatVersion := 1, game := "minecraft", versionId := "1.0.0",
           name := some "NeoForge 1.21.11 Mods",
           summary := some "Auto-generated Modrinth pack for the server/client mod list.",
           files := [{ path := "mods/sodium-0.6.0.jar", sha1 := "sha1-digest",
                       sha512 := "sha512-digest",
                       downloads := ["https://example.org/sodium.jar"],
                       fileSize := 1024 }],
           dependencies := [("minecraft", some "1.21.11")] },
       .zip "/tmp/mrpack-Ab12Cd" "/srv/pack/neoforge-1.21.11.mrpack"] := by
  refine ⟨by simp, rfl, rfl, by simp, by decide, by decide, by decide, by decide, by decide⟩

end Pack

namespace ServerMods

/-! ## server_mods.js: unsupported mods -/

theorem isServerSupported_unsupported :
    isServerSupported (some "unsupported") = some false := by
  decide

/-- An entry of the report whose side is `unsupported` changes neither list. -/
theorem reportLoop_drop_unsupported (includeUnknown : Bool) (entries : List Entry) :
    ∀ acc : Lists,
      reportLoop includeUnknown entries acc =
        reportLoop includeUnknown
          (entries.filter (fun e => jsOr e.serverSide e.server_side != some "unsupported"))
          acc := by
  induction entries with
  | nil => intro acc; rfl
  | cons entry rest ih =>
    intro acc
    by_cases hside : jsOr entry.serverSide entry.server_side = some "unsupported"
    · have hf : (entry :: rest).filter
          (fun e => jsOr e.serverSide e.server_side != some "unsupported") =
          rest.filter (fun e => jsOr e.serverSide e.server_side != some "unsupported") := by
        simp [List.filter_cons, hside]
      rw [hf, ← ih acc]
      by_cases hst : (entry.status != some "downloaded") = true
      · simp only [reportLoop, hst, if_true]
      · simp only [reportLoop, hst, hside, isServerSupported_unsupported]
        simp
    · have hf : (entry :: rest).filter
          (fun e => jsOr e.serverSide e.server_side != some "unsupported") =
          entry :: rest.filter
            (fun e => jsOr e.serverSide e.server_side != some "unsupported") := by
        simp [List.filter_cons, hside]
      rw [hf]
      unfold reportLoop
      simp only [ih]

/-- An external entry whose derived side is `unsupported` changes neither
list. -/
theorem externalLoop_drop_unsupported (includeUnknown : Bool)
    (entries : List ExternalEntry) :
    ∀ acc : Lists,
      externalLoop includeUnknown entries acc =
        externalLoop includeUnknown
          (entries.filter
            (fun x => (normalizeExternalSide x).serverSide != some "unsupported"))
          acc := by
  induction entries with
  | nil => intro acc; rfl
  | cons entry rest ih =>
    intro acc
    by_cases hside : (normalizeExternalSide entry).serverSide = some "unsupported"
    · have hf : (entry :: rest).filter
          (fun x => (normalizeExternalSide x).serverSide != some "unsupported") =
          rest.filter
            (fun x => (normalizeExternalSide x).serverSide != some "unsupported") := by
        simp [List.filter_cons, hside]
      rw [hf, ← ih acc]
      by_cases hfile : (!truthy (jsTrim ((jsOr entry.file (some "")).getD ""))) = true
      · simp only [externalLoop, hfile, if_true]
      · simp only [externalLoop, hfile, hside, isServerSupported_unsupported]
        simp
    · have hf : (entry :: rest).filter
          (fun x => (normalizeExternalSide x).serverSide != some "unsupported") =
          entry :: rest.filter
            (fun x => (normalizeExternalSide x).serverSide != some "unsupported") := by
        simp [List.filter_cons, hside]
      rw [hf]
      unfold externalLoop
      simp only [ih]

/-- Every element that the first loop adds to `serverMods` comes from a
downloaded entry whose side is not `unsupported`. -/
theorem reportLoop_origin (includeUnknown : Bool) (entries : List Entry) :
    ∀ (acc : Lists), ∀ item ∈ (reportLoop includeUnknown entries acc).serverMods,
      item ∈ acc.serverMods ∨
      ∃ e ∈ entries, e.status = some "downloaded" ∧
        jsOr e.serverSide e.server_side ≠ some "unsupported" ∧
        item = { name := jsOr (jsOr e.title e.slug) e.query, file := e.file } := by
  induction entries with
  | nil => intro acc item h; exact Or.inl (by simpa [reportLoop] using h)
  | cons entry rest ih =>
    intro acc item h
    have lift : ∀ acc1 : Lists,
        (∀ i ∈ acc1.serverMods, i ∈ acc.serverMods ∨
          (entry.status = some "downloaded" ∧
            jsOr entry.serverSide entry.server_side ≠ some "unsupported" ∧
            i = { name := jsOr (jsOr entry.title entry.slug) entry.query,
                  file := entry.file })) →
        item ∈ (reportLoop includeUnknown rest acc1).serverMods →
        item ∈ acc.serverMods ∨
        ∃ e ∈ entry :: rest, e.status = some "downloaded" ∧
          jsOr e.serverSide e.server_side ≠ some "unsupported" ∧
          item = { name := jsOr (jsOr e.title e.slug) e.query, file := e.file } := by
      intro acc1 hacc hitem
      rcases ih acc1 item hitem with h1 | ⟨e, he, h2⟩
      · rcases hacc item h1 with h3 | h3
        · exact Or.inl h3
        · exact Or.inr ⟨entry, List.mem_cons_self _ _, h3⟩
      · exact Or.inr ⟨e, List.mem_cons_of_mem _ he, h2⟩
    unfold reportLoop at h
    by_cases hst : (entry.status != some "downloaded") = true
    · simp only [hst, if_true] at h
      exact lift acc (fun i hi => Or.inl hi) h
    · have hdl : entry.status = some "downloaded" := by simpa using hst
      simp only [hst] at h
      simp only [Bool.false_eq_true, if_false] at h
      cases hsup : isServerSupported (jsOr entry.serverSide entry.server_side) with
      | none =>
        have hnu : jsOr entry.serverSide entry.server_side ≠ some "unsupported" := by
          intro hu
          rw [hu, isServerSupported_unsupported] at hsup
          cases hsup
        simp only [hsup] at h
        cases includeUnknown with
        | false =>
          simp only [Bool.not_false, if_true] at h
          refine lift _ ?_ h
          intro i hi
          exact Or.inl hi
        | true =>
          simp only [Bool.not_true, Bool.false_eq_true, if_false] at h
          refine lift _ ?_ h
          intro i hi
          rcases List.mem_append.mp hi with hi | hi
          · exact Or.inl hi
          · exact Or.inr ⟨hdl, hnu, by simpa using hi⟩
      | some supported =>
        simp only [hsup] at h
        cases supported with
        | false =>
          simp only [Bool.not_false, if_true] at h
          exact lift acc (fun i hi => Or.inl hi) h
        | true =>
          have hnu : jsOr entry.serverSide entry.server_side ≠ some "unsupported" := by
            intro hu
            rw [hu, isServerSupported_unsupported] at hsup
            cases hsup
          simp only [Bool.not_true, Bool.false_eq_true, if_false] at h
          refine lift _ ?_ h
          intro i hi
          rcases List.mem_append.mp hi with hi | hi
          · exact Or.inl hi
          · exact Or.inr ⟨hdl, hnu, by simpa using hi⟩

/-- Every element that the second loop adds to `serverMods` comes from an
external entry with a file whose derived side is not `unsupported`. -/
theorem externalLoop_origin (includeUnknown : Bool) (entries : List ExternalEntry) :
    ∀ (acc : Lists), ∀ item ∈ (externalLoop includeUnknown entries acc).serverMods,
      item ∈ acc.serverMods ∨
      ∃ x ∈ entries, (normalizeExternalSide x).serverSide ≠ some "unsupported" ∧
        item = { name := jsOr x.name (some (jsTrim ((jsOr x.file (some "")).getD ""))),
                 file := some (jsTrim ((jsOr x.file (some "")).getD "")) } := by
  induction entries with
  | nil => intro acc item h; exact Or.inl (by simpa [externalLoop] using h)
  | cons entry rest ih =>
    intro acc item h
    have lift : ∀ acc1 : Lists,
        (∀ i ∈ acc1.serverMods, i ∈ acc.serverMods ∨
          ((normalizeExternalSide entry).serverSide ≠ some "unsupported" ∧
            i = { name := jsOr entry.name
                    (some (jsTrim ((jsOr entry.file (some "")).getD ""))),
                  file := some (jsTrim ((jsOr entry.file (some "")).getD "")) })) →
        item ∈ (externalLoop includeUnknown rest acc1).serverMods →
        item ∈ acc.serverMods ∨
        ∃ x ∈ entry :: rest, (normalizeExternalSide x).serverSide ≠ some "unsupported" ∧
          item = { name := jsOr x.name (some (jsTrim ((jsOr x.file (some "")).getD ""))),
                   file := some (jsTrim ((jsOr x.file (some "")).getD "")) } := by
      intro acc1 hacc hitem
      rcases ih acc1 item hitem with h1 | ⟨e, he, h2⟩
      · rcases hacc item h1 with h3 | h3
        · exact Or.inl h3
        · exact Or.inr ⟨entry, List.mem_cons_self _ _, h3⟩
      · exact Or.inr ⟨e, List.mem_cons_of_mem _ he, h2⟩
    unfold externalLoop at h
    by_cases hfile : (!truthy (jsTrim ((jsOr entry.file (some "")).getD ""))) = true
    · simp only [hfile, if_true] at h
      exact lift acc (fun i hi => Or.inl hi) h
    · simp only [hfile] at h
      simp only [Bool.false_eq_true, if_false] at h
      cases hsup : isServerSupported (normalizeExternalSide entry).serverSide with
      | none =>
        have hnu : (normalizeExternalSide entry).serverSide ≠ some "unsupported" := by
          intro hu
          rw [hu, isServerSupported_unsupported] at hsup
          cases hsup
        simp only [hsup] at h
        cases includeUnknown with
        | false =>
          simp only [Bool.not_false, if_true] at h
          refine lift _ ?_ h
          intro i hi
          exact Or.inl hi
        | true =>
          simp only [Bool.not_true, Bool.false_eq_true, if_false] at h
          refine lift _ ?_ h
          intro i hi
          rcases List.mem_append.mp hi with hi | hi
          · exact Or.inl hi
          · exact Or.inr ⟨hnu, by simpa using hi⟩
      | some supported =>
        simp only [hsup] at h
        cases supported with
        | false =>
          simp only [Bool.not_false, if_true] at h
          exact lift acc (fun i hi => Or.inl hi) h
        | true =>
          have hnu : (normalizeExternalSide entry).serverSide ≠ some "unsupported" := by
            intro hu
            rw [hu, isServerSupported_unsupported] at hsup
            cases hsup
          simp only [Bool.not_true, Bool.false_eq_true, if_false] at h
          refine lift _ ?_ h
          intro i hi
          rcases List.mem_append.mp hi with hi | hi
          · exact Or.inl hi
          · exact Or.inr ⟨hnu, by simpa using hi⟩

end ServerMods

namespace ServerMods

/-- Every copy of the last loop is the copy of the file of an element of the
list it runs over. -/
theorem copyLoop_origin (w : World) (modsDir outputDir : String) (items : List Item) :
    ∀ (log : List Event), ∀ ev ∈ (copyLoop w modsDir outputDir items log).1,
      ev ∈ log ∨
      ∃ item ∈ items, ∃ file, item.file = some file ∧
        ev = .copyFile (pathJoin modsDir file) (pathJoin outputDir (pathBasename file)) := by
  induction items with
  | nil => intro log ev h; exact Or.inl (by simpa [copyLoop] using h)
  | cons item rest ih =>
    intro log ev h
    unfold copyLoop at h
    cases hfile : item.file with
    | none =>
      simp only [hfile] at h
      exact Or.inl h
    | some file =>
      simp only [hfile] at h
      by_cases hc : w.copyFile (pathJoin modsDir file)
          (pathJoin outputDir (pathBasename file)) = true
      · simp only [hc, if_true] at h
        rcases ih _ ev h with h1 | ⟨i, hi, f, hf, hev⟩
        · rcases List.mem_append.mp h1 with h1 | h1
          · exact Or.inl h1
          · exact Or.inr ⟨item, List.mem_cons_self _ _, file, hfile, by simpa using h1⟩
        · exact Or.inr ⟨i, List.mem_cons_of_mem _ hi, f, hf, hev⟩
      · simp only [hc] at h
        simp only [Bool.false_eq_true, if_false] at h
        rcases List.mem_append.mp h with h1 | h1
        · exact Or.inl h1
        · exact Or.inr ⟨item, List.mem_cons_self _ _, file, hfile, by simpa using h1⟩

/-- The lists and the copies of a run of `main`: the copy list is the one
built by the two loops from the loaded report and external list, and every
copy made is the copy of the file of an element of the copy list. -/
theorem main_copies (w : World) (argv : List String) :
    ((main w argv).lists.serverMods = [] ∨
      ∃ args report external, parseArgs argv = some args ∧
        loadJson w.exists_ w.readReport args.report = .ok (.items report) ∧
        loadJson w.exists_ w.readExternal args.external = .ok (.items external) ∧
        (main w argv).lists = classify args.includeUnknown report external) ∧
    ∀ source dest, Event.copyFile source dest ∈ (main w argv).log →
      ∃ item ∈ (main w argv).lists.serverMods, ∃ file, item.file = some file ∧
        ∃ modsDir outputDir, source = pathJoin modsDir file ∧
          dest = pathJoin outputDir (pathBasename file) := by
  unfold main
  cases hp : parseArgs argv with
  | none => exact ⟨Or.inl rfl, by simp⟩
  | some args =>
    simp only
    unfold runWith
    cases hr : loadJson w.exists_ w.readReport args.report with
    | error m => exact ⟨Or.inl rfl, by simp⟩
    | ok loadedReport =>
      simp only
      cases he : loadJson w.exists_ w.readExternal args.external with
      | error m => exact ⟨Or.inl rfl, by simp⟩
      | ok loadedExternal =>
        simp only
        cases hm : args.modsDir with
        | none => exact ⟨Or.inl rfl, by simp⟩
        | some modsDirArg =>
          cases ho : args.outputDir with
          | none => exact ⟨Or.inl rfl, by simp⟩
          | some outputDirArg =>
            simp only
            cases loadedReport with
            | notIterable =>
              refine ⟨Or.inl rfl, ?_⟩
              intro source dest hmem
              simp only at hmem
              split at hmem <;> simp at hmem
            | items report =>
            cases loadedExternal with
            | notIterable =>
              refine ⟨Or.inl rfl, ?_⟩
              intro source dest hmem
              simp only at hmem
              split at hmem <;> simp at hmem
            | items external =>
            simp only
            have horigin := copyLoop_origin w (pathResolve w.cwd modsDirArg)
              (pathResolve w.cwd outputDirArg)
              (classify args.includeUnknown report external).serverMods
              (if (args.clean && w.exists_ (pathResolve w.cwd outputDirArg)) = true then
                [Event.rm (pathResolve w.cwd outputDirArg),
                 Event.mkdir (pathResolve w.cwd outputDirArg)]
               else [Event.mkdir (pathResolve w.cwd outputDirArg)])
            have hcopy : ∀ (log : List Event) (okFlag : Bool),
                copyLoop w (pathResolve w.cwd modsDirArg) (pathResolve w.cwd outputDirArg)
                  (classify args.includeUnknown report external).serverMods
                  (if (args.clean && w.exists_ (pathResolve w.cwd outputDirArg)) = true then
                    [Event.rm (pathResolve w.cwd outputDirArg),
                     Event.mkdir (pathResolve w.cwd outputDirArg)]
                   else [Event.mkdir (pathResolve w.cwd outputDirArg)]) = (log, okFlag) →
                ∀ source dest, Event.copyFile source dest ∈ log →
                  ∃ item ∈ (classify args.includeUnknown report external).serverMods,
                    ∃ file, item.file = some file ∧
                                    ∃ modsDir outputDir, source = pathJoin modsDir file ∧
                        dest = pathJoin outputDir (pathBasename file) := by
              intro log okFlag hcl source dest hmem
              rw [hcl] at horigin
              rcases horigin _ hmem with h1 | ⟨item, hi, file, hf, hev⟩
              · split at h1 <;> simp at h1
              · simp only [Event.copyFile.injEq] at hev
                exact ⟨item, hi, file, hf, _, _, hev.1, hev.2⟩
            cases hcl : copyLoop w (pathResolve w.cwd modsDirArg)
                (pathResolve w.cwd outputDirArg)
                (classify args.includeUnknown report external).serverMods
                (if (args.clean && w.exists_ (pathResolve w.cwd outputDirArg)) = true then
                  [Event.rm (pathResolve w.cwd outputDirArg),
                   Event.mkdir (pathResolve w.cwd outputDirArg)]
                 else [Event.mkdir (pathResolve w.cwd outputDirArg)]) with
            | mk log okFlag =>
              cases okFlag with
              | true =>
                exact ⟨Or.inr ⟨args, report, external, rfl, hr, he, rfl⟩,
                  hcopy log true hcl⟩
              | false =>
                exact ⟨Or.inr ⟨args, report, external, rfl, hr, he, rfl⟩,
                  hcopy log false hcl⟩

/-- C10: whatever the include-unknown flag, an entry whose applicable
server-side value is `unsupported` contributes nothing to the lists (they are
those obtained with all such entries removed), every element of the copy
list comes from a downloaded report entry or an external entry whose
applicable server-side value is not `unsupported`, and every copy that `main`
makes is the copy of the file of an element of the copy list.  The applicable
value is `serverSide || server_side` for a report entry and the `serverSide` of
`normalizeExternalSide` for an external entry. -/
theorem unsupported_never_copied :
    (∀ (includeUnknown : Bool) (report : List Entry) (external : List ExternalEntry),
      classify includeUnknown report external =
        classify includeUnknown
          (report.filter (fun e => jsOr e.serverSide e.server_side != some "unsupported"))
          (external.filter
            (fun x => (normalizeExternalSide x).serverSide != some "unsupported")) ∧
      ∀ item ∈ (classify includeUnknown report external).serverMods,
        (∃ e ∈ report, e.status = some "downloaded" ∧
          jsOr e.serverSide e.server_side ≠ some "unsupported" ∧
          item = { name := jsOr (jsOr e.title e.slug) e.query, file := e.file }) ∨
        (∃ x ∈ external, (normalizeExternalSide x).serverSide ≠ some "unsupported" ∧
          item = { name := jsOr x.name (some (jsTrim ((jsOr x.file (some "")).getD ""))),
                   file := some (jsTrim ((jsOr x.file (some "")).getD "")) })) ∧
    (∀ (w : World) (argv : List String),
      ((main w argv).lists.serverMods = [] ∨
        ∃ args report external, parseArgs argv = some args ∧
          loadJson w.exists_ w.readReport args.report = .ok (.items report) ∧
          loadJson w.exists_ w.readExternal args.external = .ok (.items external) ∧
          (main w argv).lists = classify args.includeUnknown report external) ∧
      ∀ source dest, Event.copyFile source dest ∈ (main w argv).log →
        ∃ item ∈ (main w argv).lists.serverMods, ∃ file, item.file = some file ∧
          ∃ modsDir outputDir, source = pathJoin modsDir file ∧
            dest = pathJoin outputDir (pathBasename file)) := by
  refine ⟨?_, main_copies⟩
  intro includeUnknown report external
  constructor
  · unfold classify
    rw [← reportLoop_drop_unsupported, ← externalLoop_drop_unsupported]
  · intro item hitem
    unfold classify at hitem
    rcases externalLoop_origin includeUnknown external _ item hitem with h | h
    · rcases reportLoop_origin includeUnknown report _ item h with h2 | h2
      · simp at h2
      · exact Or.inl h2
    · exact Or.inr h

/-- Witness of `unsupported_never_copied`: with the flag set, the copy list of
a report and an external list that both hold unsupported mods is the one of
the lists without them, and it names none of their files. -/
theorem unsupported_never_copied_witness :
    classify true sidesReport sidesExternal =
      classify true
        [sideEntry "lithium" "lithium.jar" (some "required") none,
         sideEntry "jei" "jei.jar" none none]
        [sideExternal "chunky.jar" (some "Server") none,
         sideExternal "extra.jar" none none] ∧
    (classify true sidesReport sidesExternal).serverMods.map (fun item => item.file) =
      [some "lithium.jar", some "jei.jar", some "chunky.jar", some "extra.jar"] :=
  ⟨(unsupported_never_copied.1 true sidesReport sidesExternal).1.trans (by decide),
   by decide⟩

end ServerMods

/-! ## Argument parsing: the loops end within `argv.length` turns -/

namespace Download

theorem collectMods_ge (argv : List String) :
    ∀ (fuel i : Nat) (acc : List String), i ≤ (collectMods argv fuel i acc).1 := by
  intro fuel
  induction fuel with
  | zero => intro i acc; exact le_refl _
  | succ n ih =>
    intro i acc
    unfold collectMods
    cases hg : argv.get? (i + 1) with
    | none => exact le_refl _
    | some t =>
      simp only
      split
      · exact le_trans (Nat.le_succ i) (ih (i + 1) (acc ++ [t]))
      · exact le_refl _

/-- More turns than the tokens left do not change the result of the inner
loop. -/
theorem collectMods_fuel (argv : List String) :
    ∀ (fuel i : Nat) (acc : List String), argv.length ≤ i + 1 + fuel →
      ∀ fuel2, argv.length ≤ i + 1 + fuel2 →
        collectMods argv fuel i acc = collectMods argv fuel2 i acc := by
  intro fuel
  induction fuel with
  | zero =>
    intro i acc h fuel2 _
    have hnone : argv[i + 1]? = none := List.getElem?_eq_none_iff.mpr (by omega)
    cases fuel2 with
    | zero => rfl
    | succ m => simp [collectMods, hnone]
  | succ n ih =>
    intro i acc h fuel2 h2
    cases fuel2 with
    | zero =>
      have hnone : argv[i + 1]? = none := List.getElem?_eq_none_iff.mpr (by omega)
      simp [collectMods, hnone]
    | succ m =>
      simp only [collectMods]
      cases hg : argv.get? (i + 1) with
      | none => rfl
      | some t =>
        simp only
        split
        · exact ih (i + 1) _ (by omega) m (by omega)
        · rfl

/-- More turns than the tokens left do not change the result of `parseArgs`:
the bound `argv.length` of the embedding is never reached. -/
theorem download_parseLoop_fuel (argv : List String) :
    ∀ (fuel i : Nat) (args : Args), argv.length ≤ i + fuel →
      ∀ fuel2, argv.length ≤ i + fuel2 →
        parseLoop argv fuel i args = parseLoop argv fuel2 i args := by
  intro fuel
  induction fuel with
  | zero =>
    intro i args h fuel2 _
    have hnone : argv[i]? = none := List.getElem?_eq_none_iff.mpr (by omega)
    cases fuel2 with
    | zero => rfl
    | succ m => simp [parseLoop, hnone]
  | succ n ih =>
    intro i args h fuel2 h2
    cases fuel2 with
    | zero =>
      have hnone : argv[i]? = none := List.getElem?_eq_none_iff.mpr (by omega)
      simp [parseLoop, hnone]
    | succ m =>
      simp only [parseLoop]
      cases hg : argv.get? i with
      | none => rfl
      | some arg =>
        have hge := collectMods_ge argv argv.length i []
        simp only
        split_ifs
        all_goals first
          | rfl
          | exact ih _ _ (by omega) m (by omega)

end Download

namespace Pack

/-- More turns than the tokens left do not change the result of `parseArgs`. -/
theorem pack_parseLoop_fuel (argv : List String) :
    ∀ (fuel i : Nat) (args : Args), argv.length ≤ i + fuel →
      ∀ fuel2, argv.length ≤ i + fuel2 →
        parseLoop argv fuel i args = parseLoop argv fuel2 i args := by
  intro fuel
  induction fuel with
  | zero =>
    intro i args h fuel2 _
    have hnone : argv[i]? = none := List.getElem?_eq_none_iff.mpr (by omega)
    cases fuel2 with
    | zero => rfl
    | succ m => simp [parseLoop, hnone]
  | succ n ih =>
    intro i args h fuel2 h2
    cases fuel2 with
    | zero =>
      have hnone : argv[i]? = none := List.getElem?_eq_none_iff.mpr (by omega)
      simp [parseLoop, hnone]
    | succ m =>
      have e1 : ∀ a, parseLoop argv n (i + 1) a = parseLoop argv m (i + 1) a :=
        fun a => ih (i + 1) a (by omega) m (by omega)
      have e2 : ∀ a, parseLoop argv n (i + 2) a = parseLoop argv m (i + 2) a :=
        fun a => ih (i + 2) a (by omega) m (by omega)
      simp only [parseLoop, e1, e2]

end Pack

namespace ServerMods

/-- More turns than the tokens left do not change the result of `parseArgs`. -/
theorem server_parseLoop_fuel (argv : List String) :
    ∀ (fuel i : Nat) (args : Args), argv.length ≤ i + fuel →
      ∀ fuel2, argv.length ≤ i + fuel2 →
        parseLoop argv fuel i args = parseLoop argv fuel2 i args := by
  intro fuel
  induction fuel with
  | zero =>
    intro i args h fuel2 _
    have hnone : argv[i]? = none := List.getElem?_eq_none_iff.mpr (by omega)
    cases fuel2 with
    | zero => rfl
    | succ m => simp [parseLoop, hnone]
  | succ n ih =>
    intro i args h fuel2 h2
    cases fuel2 with
    | zero =>
      have hnone : argv[i]? = none := List.getElem?_eq_none_iff.mpr (by omega)
      simp [parseLoop, hnone]
    | succ m =>
      have e1 : ∀ a, parseLoop argv n (i + 1) a = parseLoop argv m (i + 1) a :=
        fun a => ih (i + 1) a (by omega) m (by omega)
      have e2 : ∀ a, parseLoop argv n (i + 2) a = parseLoop argv m (i + 2) a :=
        fun a => ih (i + 2) a (by omega) m (by omega)
      simp only [parseLoop, e1, e2]

end ServerMods

namespace ServerMods

/-! ## server_mods.js: unknown mods and the side shorthand -/

/-- What the first loop adds to the two lists does not depend on what they
held before. -/
theorem reportLoop_acc (includeUnknown : Bool) (entries : List Entry) :
    ∃ S U, ∀ acc : Lists,
      reportLoop includeUnknown entries acc =
        { serverMods := acc.serverMods ++ S, unknownMods := acc.unknownMods ++ U } := by
  induction entries with
  | nil => exact ⟨[], [], fun acc => by simp [reportLoop]⟩
  | cons entry rest ih =>
    obtain ⟨S, U, h⟩ := ih
    by_cases hst : (entry.status != some "downloaded") = true
    · exact ⟨S, U, fun acc => by simp only [reportLoop, hst, if_true, h]⟩
    · cases hsup : isServerSupported (jsOr entry.serverSide entry.server_side) with
      | none =>
        cases includeUnknown with
        | false =>
          refine ⟨S, { name := jsOr (jsOr entry.title entry.slug) entry.query,
                       file := entry.file } :: U, fun acc => ?_⟩
          simp only [reportLoop, hst, hsup, h]
          simp
        | true =>
          refine ⟨{ name := jsOr (jsOr entry.title entry.slug) entry.query,
                    file := entry.file } :: S,
                  { name := jsOr (jsOr entry.title entry.slug) entry.query,
                    file := entry.file } :: U, fun acc => ?_⟩
          simp only [reportLoop, hst, hsup, h]
          simp
      | some supported =>
        cases supported with
        | false =>
          refine ⟨S, U, fun acc => ?_⟩
          simp only [reportLoop, hst, hsup, h]
          simp
        | true =>
          refine ⟨{ name := jsOr (jsOr entry.title entry.slug) entry.query,
                    file := entry.file } :: S, U, fun acc => ?_⟩
          simp only [reportLoop, hst, hsup, h]
          simp

/-- What the second loop adds to the two lists does not depend on what they
held before. -/
theorem externalLoop_acc (includeUnknown : Bool) (entries : List ExternalEntry) :
    ∃ S U, ∀ acc : Lists,
      externalLoop includeUnknown entries acc =
        { serverMods := acc.serverMods ++ S, unknownMods := acc.unknownMods ++ U } := by
  induction entries with
  | nil => exact ⟨[], [], fun acc => by simp [externalLoop]⟩
  | cons entry rest ih =>
    obtain ⟨S, U, h⟩ := ih
    by_cases hfile : (!truthy (jsTrim ((jsOr entry.file (some "")).getD ""))) = true
    · exact ⟨S, U, fun acc => by simp only [externalLoop, hfile, if_true, h]⟩
    · cases hsup : isServerSupported (normalizeExternalSide entry).serverSide with
      | none =>
        cases includeUnknown with
        | false =>
          refine ⟨S, { name := jsOr entry.name
                         (some (jsTrim ((jsOr entry.file (some "")).getD ""))),
                       file := some (jsTrim ((jsOr entry.file (some "")).getD "")) } :: U,
                  fun acc => ?_⟩
          simp only [externalLoop, hfile, hsup, h]
          simp
        | true =>
          refine ⟨{ name := jsOr entry.name
                      (some (jsTrim ((jsOr entry.file (some "")).getD ""))),
                    file := some (jsTrim ((jsOr entry.file (some "")).getD "")) } :: S,
                  { name := jsOr entry.name
                      (some (jsTrim ((jsOr entry.file (some "")).getD ""))),
                    file := some (jsTrim ((jsOr entry.file (some "")).getD "")) } :: U,
                  fun acc => ?_⟩
          simp only [externalLoop, hfile, hsup, h]
          simp
      | some supported =>
        cases supported with
        | false =>
          refine ⟨S, U, fun acc => ?_⟩
          simp only [externalLoop, hfile, hsup, h]
          simp
        | true =>
          refine ⟨{ name := jsOr entry.name
                      (some (jsTrim ((jsOr entry.file (some "")).getD ""))),
                    file := some (jsTrim ((jsOr entry.file (some "")).getD "")) } :: S, U,
                  fun acc => ?_⟩
          simp only [externalLoop, hfile, hsup, h]
          simp

/-- Running the first loop over a concatenation is running it over the parts
in turn. -/
theorem reportLoop_append (includeUnknown : Bool) (l1 l2 : List Entry) :
    ∀ acc : Lists,
      reportLoop includeUnknown (l1 ++ l2) acc =
        reportLoop includeUnknown l2 (reportLoop includeUnknown l1 acc) := by
  induction l1 with
  | nil => intro acc; rfl
  | cons entry rest ih =>
    intro acc
    show reportLoop includeUnknown (entry :: (rest ++ l2)) acc = _
    by_cases hst : (entry.status != some "downloaded") = true
    · simp only [reportLoop, hst, if_true]
      exact ih acc
    · cases hsup : isServerSupported (jsOr entry.serverSide entry.server_side) with
      | none =>
        cases includeUnknown with
        | false =>
          simp only [reportLoop, hst, hsup]
          simp only [Bool.false_eq_true, if_false, Bool.not_false, if_true]
          exact ih _
        | true =>
          simp only [reportLoop, hst, hsup]
          simp only [Bool.false_eq_true, if_false, Bool.not_true]
          exact ih _
      | some supported =>
        cases supported with
        | false =>
          simp only [reportLoop, hst, hsup]
          simp only [Bool.false_eq_true, if_false, Bool.not_false, if_true]
          exact ih _
        | true =>
          simp only [reportLoop, hst, hsup]
          simp only [Bool.false_eq_true, if_false, Bool.not_true]
          exact ih _

/-- Running the second loop over a concatenation is running it over the parts
in turn. -/
theorem externalLoop_append (includeUnknown : Bool) (l1 l2 : List ExternalEntry) :
    ∀ acc : Lists,
      externalLoop includeUnknown (l1 ++ l2) acc =
        externalLoop includeUnknown l2 (externalLoop includeUnknown l1 acc) := by
  induction l1 with
  | nil => intro acc; rfl
  | cons entry rest ih =>
    intro acc
    show externalLoop includeUnknown (entry :: (rest ++ l2)) acc = _
    by_cases hfile : (!truthy (jsTrim ((jsOr entry.file (some "")).getD ""))) = true
    · simp only [externalLoop, hfile, if_true]
      exact ih acc
    · cases hsup : isServerSupported (normalizeExternalSide entry).serverSide with
      | none =>
        cases includeUnknown with
        | false =>
          simp only [externalLoop, hfile, hsup]
          simp only [Bool.false_eq_true, if_false, Bool.not_false, if_true]
          exact ih _
        | true =>
          simp only [externalLoop, hfile, hsup]
          simp only [Bool.false_eq_true, if_false, Bool.not_true]
          exact ih _
      | some supported =>
        cases supported with
        | false =>
          simp only [externalLoop, hfile, hsup]
          simp only [Bool.false_eq_true, if_false, Bool.not_false, if_true]
          exact ih _
        | true =>
          simp only [externalLoop, hfile, hsup]
          simp only [Bool.false_eq_true, if_false, Bool.not_true]
          exact ih _

end ServerMods

namespace ServerMods

/-- The turn of the first loop for a downloaded entry without server-side
information: it is listed as unknown, and pushed to the copy list exactly
when the flag is set. -/
theorem reportLoop_step_unknown (includeUnknown : Bool) (entry : Entry)
    (rest : List Entry) (acc : Lists)
    (hstatus : entry.status = some "downloaded")
    (hside : truthyOpt (jsOr entry.serverSide entry.server_side) = false) :
    reportLoop includeUnknown (entry :: rest) acc =
      reportLoop includeUnknown rest
        { serverMods := acc.serverMods ++
            (if includeUnknown = true then
              [{ name := jsOr (jsOr entry.title entry.slug) entry.query,
                 file := entry.file }]
             else []),
          unknownMods := acc.unknownMods ++
            [{ name := jsOr (jsOr entry.title entry.slug) entry.query,
               file := entry.file }] } := by
  have hsup : isServerSupported (jsOr entry.serverSide entry.server_side) = none := by
    simp [isServerSupported, hside]
  cases includeUnknown <;> simp [reportLoop, hstatus, hsup]

/-- The turn of the second loop for an external entry with a file and without
server-side information. -/
theorem externalLoop_step_unknown (includeUnknown : Bool) (entry : ExternalEntry)
    (rest : List ExternalEntry) (acc : Lists)
    (hfile : truthy (jsTrim ((jsOr entry.file (some "")).getD "")) = true)
    (hside : truthyOpt (normalizeExternalSide entry).serverSide = false) :
    externalLoop includeUnknown (entry :: rest) acc =
      externalLoop includeUnknown rest
        { serverMods := acc.serverMods ++
            (if includeUnknown = true then
              [{ name := jsOr entry.name
                   (some (jsTrim ((jsOr entry.file (some "")).getD ""))),
                 file := some (jsTrim ((jsOr entry.file (some "")).getD "")) }]
             else []),
          unknownMods := acc.unknownMods ++
            [{ name := jsOr entry.name
                 (some (jsTrim ((jsOr entry.file (some "")).getD ""))),
               file := some (jsTrim ((jsOr entry.file (some "")).getD "")) }] } := by
  have hsup : isServerSupported (normalizeExternalSide entry).serverSide = none := by
    simp [isServerSupported, hside]
  cases includeUnknown <;> simp [externalLoop, hfile, hsup]

/-- The side derived from the shorthand `server` or `both` is `required`, the
one derived from `client` is `unsupported`. -/
theorem normalizeExternalSide_shorthand (entry : ExternalEntry) :
    ((jsTrim (jsToLowerCase ((jsOr entry.side (some "")).getD "")) = "server" ∨
        jsTrim (jsToLowerCase ((jsOr entry.side (some "")).getD "")) = "both") →
      (normalizeExternalSide entry).serverSide = some "required") ∧
    (jsTrim (jsToLowerCase ((jsOr entry.side (some "")).getD "")) = "client" →
      (normalizeExternalSide entry).serverSide = some "unsupported") := by
  constructor
  · rintro (h | h) <;> simp [normalizeExternalSide, h]
  · intro h
    simp [normalizeExternalSide, h]

/-- The turn of the second loop for an external entry with a file whose side
shorthand is `server` or `both`: it is pushed to the copy list, whatever the
flag. -/
theorem externalLoop_step_server (includeUnknown : Bool) (entry : ExternalEntry)
    (rest : List ExternalEntry) (acc : Lists)
    (hfile : truthy (jsTrim ((jsOr entry.file (some "")).getD "")) = true)
    (hside : jsTrim (jsToLowerCase ((jsOr entry.side (some "")).getD "")) = "server" ∨
      jsTrim (jsToLowerCase ((jsOr entry.side (some "")).getD "")) = "both") :
    externalLoop includeUnknown (entry :: rest) acc =
      externalLoop includeUnknown rest
        { serverMods := acc.serverMods ++
            [{ name := jsOr entry.name
                 (some (jsTrim ((jsOr entry.file (some "")).getD ""))),
               file := some (jsTrim ((jsOr entry.file (some "")).getD "")) }],
          unknownMods := acc.unknownMods } := by
  have hreq := (normalizeExternalSide_shorthand entry).1 hside
  have hsup : isServerSupported (normalizeExternalSide entry).serverSide = some true := by
    rw [hreq]; decide
  simp [externalLoop, hfile, hsup]

/-- The turn of the second loop for an external entry whose side shorthand is
`client`: nothing is pushed, whatever the flag. -/
theorem externalLoop_step_client (includeUnknown : Bool) (entry : ExternalEntry)
    (rest : List ExternalEntry) (acc : Lists)
    (hside : jsTrim (jsToLowerCase ((jsOr entry.side (some "")).getD "")) = "client") :
    externalLoop includeUnknown (entry :: rest) acc =
      externalLoop includeUnknown rest acc := by
  have hun := (normalizeExternalSide_shorthand entry).2 hside
  by_cases hfile : (!truthy (jsTrim ((jsOr entry.file (some "")).getD ""))) = true
  · simp only [externalLoop, hfile, if_true]
  · simp only [externalLoop, hfile, hun, isServerSupported_unsupported]
    simp

/-- With every copy succeeding and every element naming a file, the last loop
copies the file of every element, in order, and ends normally. -/
theorem copyLoop_complete (w : World) (modsDir outputDir : String)
    (hcopy : ∀ source dest, w.copyFile source dest = true) (items : List Item) :
    (∀ item ∈ items, ∃ file, item.file = some file) →
    ∀ log : List Event,
      copyLoop w modsDir outputDir items log =
        (log ++ items.filterMap (fun item => item.file.map (fun file =>
            Event.copyFile (pathJoin modsDir file)
              (pathJoin outputDir (pathBasename file)))),
          true) := by
  induction items with
  | nil => intro _ log; simp [copyLoop]
  | cons item rest ih =>
    intro hfiles log
    obtain ⟨file, hfile⟩ := hfiles item (List.mem_cons_self _ _)
    have hrest := ih (fun i hi => hfiles i (List.mem_cons_of_mem _ hi))
    simp only [copyLoop, hfile, hcopy, if_true, hrest]
    simp [List.filterMap_cons, hfile]

end ServerMods

namespace ServerMods

/-- An external entry without `side`, `serverSide` and `server_side` has no
derived server side. -/
theorem normalizeExternalSide_absent (entry : ExternalEntry)
    (hside : truthyOpt entry.side = false) (h1 : truthyOpt entry.serverSide = false)
    (h2 : truthyOpt entry.server_side = false) :
    truthyOpt (normalizeExternalSide entry).serverSide = false := by
  have hs : jsTrim (jsToLowerCase ((jsOr entry.side (some "")).getD "")) = "" := by
    simp only [jsOr, hside, Bool.false_eq_true, if_false, Option.getD_some]
    decide
  have hc : ("" : String) ≠ "client" := by decide
  have hv : ("" : String) ≠ "server" := by decide
  have hb : ("" : String) ≠ "both" := by decide
  unfold normalizeExternalSide
  simp only [hs]
  rw [if_neg hc, if_neg hv, if_neg hb]
  simp only [jsOr, h1, Bool.false_eq_true, if_false]
  exact h2

/-- The run of `main` after `parseArgs` when nothing fails: the lists are those
of the two loops and the file of every element of the copy list is copied. -/
theorem runWith_copies (w : World) (args : Args) (report : List Entry)
    (external : List ExternalEntry) (modsDirArg outputDirArg : String)
    (hreport : loadJson w.exists_ w.readReport args.report = .ok (.items report))
    (hexternal : loadJson w.exists_ w.readExternal args.external = .ok (.items external))
    (hmods : args.modsDir = some modsDirArg) (hout : args.outputDir = some outputDirArg)
    (hcopy : ∀ source dest, w.copyFile source dest = true)
    (hfiles : ∀ item ∈ (classify args.includeUnknown report external).serverMods,
      ∃ file, item.file = some file) :
    (runWith w args).exitCode = 0 ∧
    (runWith w args).lists = classify args.includeUnknown report external ∧
    ∀ item ∈ (classify args.includeUnknown report external).serverMods,
      ∀ file, item.file = some file →
        Event.copyFile (pathJoin (pathResolve w.cwd modsDirArg) file)
          (pathJoin (pathResolve w.cwd outputDirArg) (pathBasename file)) ∈
          (runWith w args).log := by
  have hloop := copyLoop_complete w (pathResolve w.cwd modsDirArg)
    (pathResolve w.cwd outputDirArg) hcopy
    (classify args.includeUnknown report external).serverMods hfiles
  have hrun : runWith w args =
      { exitCode := 0,
        lists := classify args.includeUnknown report external,
        log := (if (args.clean && w.exists_ (pathResolve w.cwd outputDirArg)) = true then
            [Event.rm (pathResolve w.cwd outputDirArg),
             Event.mkdir (pathResolve w.cwd outputDirArg)]
          else [Event.mkdir (pathResolve w.cwd outputDirArg)]) ++
          (classify args.includeUnknown report external).serverMods.filterMap
            (fun item => item.file.map (fun file =>
              Event.copyFile (pathJoin (pathResolve w.cwd modsDirArg) file)
                (pathJoin (pathResolve w.cwd outputDirArg) (pathBasename file)))) } := by
    unfold runWith
    simp only [hreport, hexternal, hmods, hout, hloop]
  rw [hrun]
  refine ⟨rfl, rfl, ?_⟩
  intro item hitem file hfile
  apply List.mem_append_right
  exact List.mem_filterMap.mpr ⟨item, hitem, by simp [hfile]⟩

/-- C11: a downloaded report entry, or an external entry with a file, that has
no server-side information adds itself once to the unknown list, and once to
the copy list when the include-unknown flag is set and not at all otherwise
(the lists with the entry are those without it plus the entry at its place).
An external entry with a file whose side is `server` or `both` adds itself
once to the copy list and nothing to the unknown list, and one whose side is
`client` adds nothing to either list, whatever the flag.  In a run where no
step fails, the file of every element of the copy list is copied. -/
theorem unknown_listed_and_flag_gated :
    (∀ (includeUnknown : Bool) (pre : List Entry) (entry : Entry) (post : List Entry)
        (external : List ExternalEntry),
      entry.status = some "downloaded" →
      truthyOpt (jsOr entry.serverSide entry.server_side) = false →
      ∃ A B A2 B2,
        (classify includeUnknown (pre ++ entry :: post) external).serverMods =
          A ++ (if includeUnknown = true then
                  [{ name := jsOr (jsOr entry.title entry.slug) entry.query,
                     file := entry.file }]
                else []) ++ B ∧
        (classify includeUnknown (pre ++ post) external).serverMods = A ++ B ∧
        (classify includeUnknown (pre ++ entry :: post) external).unknownMods =
          A2 ++ [{ name := jsOr (jsOr entry.title entry.slug) entry.query,
                   file := entry.file }] ++ B2 ∧
        (classify includeUnknown (pre ++ post) external).unknownMods = A2 ++ B2) ∧
    (∀ (includeUnknown : Bool) (report : List Entry) (pre : List ExternalEntry)
        (entry : ExternalEntry) (post : List ExternalEntry),
      truthy (jsTrim ((jsOr entry.file (some "")).getD "")) = true →
      truthyOpt (normalizeExternalSide entry).serverSide = false →
      ∃ A B A2 B2,
        (classify includeUnknown report (pre ++ entry :: post)).serverMods =
          A ++ (if includeUnknown = true then
                  [{ name := jsOr entry.name
                       (some (jsTrim ((jsOr entry.file (some "")).getD ""))),
                     file := some (jsTrim ((jsOr entry.file (some "")).getD "")) }]
                else []) ++ B ∧
        (classify includeUnknown report (pre ++ post)).serverMods = A ++ B ∧
        (classify includeUnknown report (pre ++ entry :: post)).unknownMods =
          A2 ++ [{ name := jsOr entry.name
                     (some (jsTrim ((jsOr entry.file (some "")).getD ""))),
                   file := some (jsTrim ((jsOr entry.file (some "")).getD "")) }] ++ B2 ∧
        (classify includeUnknown report (pre ++ post)).unknownMods = A2 ++ B2) ∧
    (∀ entry : ExternalEntry,
      truthyOpt entry.side = false → truthyOpt entry.serverSide = false →
      truthyOpt entry.server_side = false →
      truthyOpt (normalizeExternalSide entry).serverSide = false) ∧
    (∀ (includeUnknown : Bool) (report : List Entry) (pre : List ExternalEntry)
        (entry : ExternalEntry) (post : List ExternalEntry),
      truthy (jsTrim ((jsOr entry.file (some "")).getD "")) = true →
      (jsTrim (jsToLowerCase ((jsOr entry.side (some "")).getD "")) = "server" ∨
        jsTrim (jsToLowerCase ((jsOr entry.side (some "")).getD "")) = "both") →
      ∃ A B,
        (classify includeUnknown report (pre ++ entry :: post)).serverMods =
          A ++ [{ name := jsOr entry.name
                    (some (jsTrim ((jsOr entry.file (some "")).getD ""))),
                  file := some (jsTrim ((jsOr entry.file (some "")).getD "")) }] ++ B ∧
        (classify includeUnknown report (pre ++ post)).serverMods = A ++ B ∧
        (classify includeUnknown report (pre ++ entry :: post)).unknownMods =
          (classify includeUnknown report (pre ++ post)).unknownMods) ∧
    (∀ (includeUnknown : Bool) (report : List Entry) (pre : List ExternalEntry)
        (entry : ExternalEntry) (post : List ExternalEntry),
      jsTrim (jsToLowerCase ((jsOr entry.side (some "")).getD "")) = "client" →
      classify includeUnknown report (pre ++ entry :: post) =
        classify includeUnknown report (pre ++ post)) ∧
    (∀ (w : World) (args : Args) (report : List Entry) (external : List ExternalEntry)
        (modsDirArg outputDirArg : String),
      loadJson w.exists_ w.readReport args.report = .ok (.items report) →
      loadJson w.exists_ w.readExternal args.external = .ok (.items external) →
      args.modsDir = some modsDirArg → args.outputDir = some outputDirArg →
      (∀ source dest, w.copyFile source dest = true) →
      (∀ item ∈ (classify args.includeUnknown report external).serverMods,
        ∃ file, item.file = some file) →
      (runWith w args).exitCode = 0 ∧
      (runWith w args).lists = classify args.includeUnknown report external ∧
      ∀ item ∈ (classify args.includeUnknown report external).serverMods,
        ∀ file, item.file = some file →
          Event.copyFile (pathJoin (pathResolve w.cwd modsDirArg) file)
            (pathJoin (pathResolve w.cwd outputDirArg) (pathBasename file)) ∈
            (runWith w args).log) := by
  refine ⟨?_, ?_, normalizeExternalSide_absent, ?_, ?_, runWith_copies⟩
  · intro includeUnknown pre entry post external hstatus hside
    obtain ⟨Sp, Up, hp⟩ := reportLoop_acc includeUnknown pre
    obtain ⟨Sq, Uq, hq⟩ := reportLoop_acc includeUnknown post
    obtain ⟨Se, Ue, he⟩ := externalLoop_acc includeUnknown external
    refine ⟨Sp, Sq ++ Se, Up, Uq ++ Ue, ?_, ?_, ?_, ?_⟩
    · simp only [classify, reportLoop_append,
        reportLoop_step_unknown includeUnknown entry post _ hstatus hside, hp, hq, he]
      simp
    · simp only [classify, reportLoop_append, hp, hq, he]
      simp
    · simp only [classify, reportLoop_append,
        reportLoop_step_unknown includeUnknown entry post _ hstatus hside, hp, hq, he]
      simp
    · simp only [classify, reportLoop_append, hp, hq, he]
      simp
  · intro includeUnknown report pre entry post hfile hside
    obtain ⟨Sr, Ur, hr⟩ := reportLoop_acc includeUnknown report
    obtain ⟨Sp, Up, hp⟩ := externalLoop_acc includeUnknown pre
    obtain ⟨Sq, Uq, hq⟩ := externalLoop_acc includeUnknown post
    refine ⟨Sr ++ Sp, Sq, Ur ++ Up, Uq, ?_, ?_, ?_, ?_⟩
    · simp only [classify, externalLoop_append,
        externalLoop_step_unknown includeUnknown entry post _ hfile hside, hr, hp, hq]
      simp
    · simp only [classify, externalLoop_append, hr, hp, hq]
      simp
    · simp only [classify, externalLoop_append,
        externalLoop_step_unknown includeUnknown entry post _ hfile hside, hr, hp, hq]
      simp
    · simp only [classify, externalLoop_append, hr, hp, hq]
      simp
  · intro includeUnknown report pre entry post hfile hside
    obtain ⟨Sr, Ur, hr⟩ := reportLoop_acc includeUnknown report
    obtain ⟨Sp, Up, hp⟩ := externalLoop_acc includeUnknown pre
    obtain ⟨Sq, Uq, hq⟩ := externalLoop_acc includeUnknown post
    refine ⟨Sr ++ Sp, Sq, ?_, ?_, ?_⟩
    · simp only [classify, externalLoop_append,
        externalLoop_step_server includeUnknown entry post _ hfile hside, hr, hp, hq]
      simp
    · simp only [classify, externalLoop_append, hr, hp, hq]
      simp
    · simp only [classify, externalLoop_append,
        externalLoop_step_server includeUnknown entry post _ hfile hside, hr, hp, hq]
  · intro includeUnknown report pre entry post hside
    simp only [classify, externalLoop_append,
      externalLoop_step_client includeUnknown entry post _ hside]

/-- Witness of `unknown_listed_and_flag_gated`: a report entry without side
members with the flag unset, an external entry with side `client` among
others, and a run with the flag set in which both unknown mods are copied. -/
theorem unknown_listed_and_flag_gated_witness :
    (∃ A B A2 B2,
      (classify false ([] ++ plainEntry :: []) []).serverMods =
        A ++ (if false = true then
                [{ name := jsOr (jsOr plainEntry.title plainEntry.slug) plainEntry.query,
                   file := plainEntry.file }]
              else []) ++ B ∧
      (classify false ([] ++ []) []).serverMods = A ++ B ∧
      (classify false ([] ++ plainEntry :: []) []).unknownMods =
        A2 ++ [{ name := jsOr (jsOr plainEntry.title plainEntry.slug) plainEntry.query,
                 file := plainEntry.file }] ++ B2 ∧
      (classify false ([] ++ []) []).unknownMods = A2 ++ B2) ∧
    classify true sidesReport
        ([sideExternal "chunky.jar" (some "Server") none] ++
          sideExternal "shaders.jar" (some "client") none :: [plainExternal]) =
      classify true sidesReport
        ([sideExternal "chunky.jar" (some "Server") none] ++ [plainExternal]) ∧
    (runWith (demoWorld [plainEntry] [plainExternal])
      { Args.defaults with includeUnknown := true }).exitCode = 0 :=
  ⟨unknown_listed_and_flag_gated.1 false [] plainEntry [] [] rfl (by decide),
   unknown_listed_and_flag_gated.2.2.2.2.1 true sidesReport
     [sideExternal "chunky.jar" (some "Server") none]
     (sideExternal "shaders.jar" (some "client") none) [plainExternal] (by decide),
   (unknown_listed_and_flag_gated.2.2.2.2.2 (demoWorld [plainEntry] [plainExternal])
     { Args.defaults with includeUnknown := true } [plainEntry] [plainExternal]
     "mods" "server_mods" (by rfl) (by rfl) rfl rfl (fun _ _ => rfl)
     (by
       intro item hitem
       have hs : (classify true [plainEntry] [plainExternal]).serverMods =
           [{ name := some "jei", file := some "jei.jar" },
            { name := some "extra.jar", file := some "extra.jar" }] := by decide
       change item ∈ (classify true [plainEntry] [plainExternal]).serverMods at hitem
       rw [hs] at hitem
       simp only [List.mem_cons, List.mem_singleton, List.not_mem_nil, or_false] at hitem
       rcases hitem with rfl | rfl
       · exact ⟨"jei.jar", rfl⟩
       · exact ⟨"extra.jar", rfl⟩)).1⟩

end ServerMods

namespace UpdatePack

/-! ## update_pack.js: the chain of child processes -/

theorem exitStatus_of_lt (s : Nat) (h : s < 256) : exitStatus s = s :=
  Nat.mod_eq_of_lt h

/-- The function `run` on a child that ends with status zero. -/
theorem run_zero (spawn : Spawn) (done : List Command) (c : Command)
    (h : spawn done c = some 0) : run spawn done c = .ok (done ++ [c]) := by
  simp [run, h]

/-- The function `run` on a child that ends with a status other than zero. -/
theorem run_nonzero (spawn : Spawn) (done : List Command) (c : Command) (s : Nat)
    (h : spawn done c = some s) (hs : s ≠ 0) (hb : s < 256) :
    run spawn done c = .error (s, done ++ [c]) := by
  cases s with
  | zero => exact absurd rfl hs
  | succ n => simp [run, h, exitStatus_of_lt (n + 1) hb]

/-- The function `run` returns only when the child ended with status zero. -/
theorem run_ok (spawn : Spawn) (done : List Command) (c : Command) (r : List Command)
    (h : run spawn done c = .ok r) : spawn done c = some 0 ∧ r = done ++ [c] := by
  unfold run at h
  split at h
  · rename_i h0
    simp only [Except.ok.injEq] at h
    exact ⟨h0, h.symm⟩
  · simp at h
  · simp at h

/-- The commands that `run` reports are the ones before it and its own. -/
theorem run_error (spawn : Spawn) (done : List Command) (c : Command) (code : Nat)
    (r : List Command) (h : run spawn done c = .error (code, r)) : r = done ++ [c] := by
  unfold run at h
  split at h
  · simp at h
  · simp only [Except.error.injEq, Prod.mk.injEq] at h
    exact h.2.symm
  · simp only [Except.error.injEq, Prod.mk.injEq] at h
    exact h.2.symm

/-- The commands the driver runs are an initial part of the sequence
downloader, pack assembler, extractor. -/
theorem driver_chain (spawn : Spawn) (argv : List String) (args : Args)
    (hparse : parseArgs argv = some args) :
    ∃ rest, (main spawn argv).commands ++ rest =
      [downloadCommand args, packCommand args, serverCommand] := by
  unfold main
  simp only [hparse]
  cases h1 : run spawn [] (downloadCommand args) with
  | error r =>
    obtain ⟨code, done⟩ := r
    have := run_error spawn _ _ _ _ h1
    subst this
    exact ⟨[packCommand args, serverCommand], rfl⟩
  | ok done1 =>
    obtain ⟨_, rfl⟩ := run_ok spawn _ _ _ h1
    simp only
    cases h2 : run spawn ([] ++ [downloadCommand args]) (packCommand args) with
    | error r =>
      obtain ⟨code, done⟩ := r
      have := run_error spawn _ _ _ _ h2
      subst this
      exact ⟨[serverCommand], rfl⟩
    | ok done2 =>
      obtain ⟨_, rfl⟩ := run_ok spawn _ _ _ h2
      simp only
      cases h3 : run spawn ([] ++ [downloadCommand args] ++ [packCommand args])
          serverCommand with
      | error r =>
        obtain ⟨code, done⟩ := r
        have := run_error spawn _ _ _ _ h3
        subst this
        exact ⟨[], rfl⟩
      | ok done3 =>
        obtain ⟨_, rfl⟩ := run_ok spawn _ _ _ h3
        exact ⟨[], rfl⟩

/-- C12: the driver calls the downloader, then the pack assembler, then the
extractor; the commands it runs are always an initial part of that sequence,
the second is run only after the first ended with status 0 and the third only
after the second did too.  For every triple of exit statuses of the three
steps, the driver stops at the first step whose status is not 0 and exits with
that status (2 included); when the first two end with 0 all three are run and
the driver exits with the status of the third. -/
theorem driver_fail_fast (spawn : Spawn) (argv : List String) (args : Args)
    (hparse : parseArgs argv = some args) :
    ((downloadCommand args).args.head? = some "modrinth_download.js" ∧
      (packCommand args).args.head? = some "modrinth_pack.js" ∧
      serverCommand.args.head? = some "server_mods.js") ∧
    (∃ rest, (main spawn argv).commands ++ rest =
      [downloadCommand args, packCommand args, serverCommand]) ∧
    (2 ≤ (main spawn argv).commands.length →
      spawn [] (downloadCommand args) = some 0) ∧
    (3 ≤ (main spawn argv).commands.length →
      spawn [downloadCommand args] (packCommand args) = some 0) ∧
    (∀ s1 s2 s3 : Nat, s1 < 256 → s2 < 256 → s3 < 256 →
      spawn [] (downloadCommand args) = some s1 →
      spawn [downloadCommand args] (packCommand args) = some s2 →
      spawn [downloadCommand args, packCommand args] serverCommand = some s3 →
      (s1 ≠ 0 → main spawn argv =
        { exitCode := s1, commands := [downloadCommand args] }) ∧
      (s1 = 0 → s2 ≠ 0 → main spawn argv =
        { exitCode := s2, commands := [downloadCommand args, packCommand args] }) ∧
      (s1 = 0 → s2 = 0 → main spawn argv =
        { exitCode := s3,
          commands := [downloadCommand args, packCommand args, serverCommand] })) := by
  refine ⟨⟨rfl, rfl, rfl⟩, driver_chain spawn argv args hparse, ?_, ?_, ?_⟩
  · intro hlen
    unfold main at hlen
    simp only [hparse] at hlen
    cases h1 : run spawn [] (downloadCommand args) with
    | error r =>
      obtain ⟨code, done⟩ := r
      have := run_error spawn _ _ _ _ h1
      subst this
      simp [h1] at hlen
    | ok done1 => exact (run_ok spawn _ _ _ h1).1
  · intro hlen
    unfold main at hlen
    simp only [hparse] at hlen
    cases h1 : run spawn [] (downloadCommand args) with
    | error r =>
      obtain ⟨code, done⟩ := r
      have := run_error spawn _ _ _ _ h1
      subst this
      simp [h1] at hlen
    | ok done1 =>
      obtain ⟨_, rfl⟩ := run_ok spawn _ _ _ h1
      simp only [h1] at hlen
      cases h2 : run spawn ([] ++ [downloadCommand args]) (packCommand args) with
      | error r =>
        obtain ⟨code, done⟩ := r
        have := run_error spawn _ _ _ _ h2
        subst this
        simp only [List.nil_append] at h2
        simp [h2] at hlen
      | ok done2 => exact (run_ok spawn _ _ _ h2).1
  · intro s1 s2 s3 hb1 hb2 hb3 h1 h2 h3
    refine ⟨?_, ?_, ?_⟩
    · intro hs1
      unfold main
      simp only [hparse, run_nonzero spawn [] _ s1 h1 hs1 hb1]
      rfl
    · intro hs1 hs2
      subst hs1
      unfold main
      simp only [hparse, run_zero spawn [] _ h1, List.nil_append,
        run_nonzero spawn [downloadCommand args] _ s2 h2 hs2 hb2]
      rfl
    · intro hs1 hs2
      subst hs1
      subst hs2
      unfold main
      simp only [hparse, run_zero spawn [] _ h1, List.nil_append,
        run_zero spawn [downloadCommand args] _ h2, List.cons_append]
      cases s3 with
      | zero =>
        simp only [run_zero spawn [downloadCommand args, packCommand args] _ h3]
        rfl
      | succ n =>
        simp only [run_nonzero spawn [downloadCommand args, packCommand args] _ (n + 1) h3
          (Nat.succ_ne_zero n) hb3]
        rfl

/-- Witness of `driver_fail_fast`: the downloader ends with its
partial-success status 2, the driver exits with 2 and runs nothing else. -/
theorem driver_fail_fast_witness :
    main (statuses 2 0 0) argvModsDir =
      { exitCode := 2,
        commands := [downloadCommand { DEFAULTS with modsDir := some "custom" }] } :=
  ((driver_fail_fast (statuses 2 0 0) argvModsDir { DEFAULTS with modsDir := some "custom" }
    (by decide)).2.2.2.2 2 0 0 (by decide) (by decide) (by decide) (by decide) (by decide)
    (by decide)).1 (by decide)

/-! ## update_pack.js: the configuration handed to the steps -/

/-- What the downloader reads from the command line the driver gives it. -/
theorem download_child_args (args : Args) :
    Download.parseArgs (downloadCommand args).childArgv =
      some { loader := some (argText args.loader),
             gameVersion := some (argText args.gameVersion),
             output := some (argText args.modsDir), mods := none, modsFile := none } := by
  rfl

/-- What the pack assembler reads from the command line the driver gives it. -/
theorem pack_child_args (args : Args) :
    Pack.parseArgs (packCommand args).childArgv =
      some { Pack.Args.defaults with
             gameVersion := some (argText args.gameVersion),
             loader := some (argText args.loader),
             modsDir := some (argText args.modsDir),
             report := some (argText args.report),
             output := some (argText args.outputPack),
             loaderVersion := some (argText args.loaderVersion) } := by
  rfl

/-- C13 (amended): for every driver command line, the downloader is called
with `--output` set to the mods directory of the driver, so it downloads there
and writes its report to `modrinth_report.json` in that directory, whatever
`--report` says; the pack assembler is called with `--mods-dir` and `--report`
set to the mods directory and the report path of the driver. -/
theorem driver_passes_configuration (argv : List String) (args : Args)
    (hparse : parseArgs argv = some args) :
    (∀ spawn : Spawn, ∃ rest, (main spawn argv).commands ++ rest =
      [downloadCommand args, packCommand args, serverCommand]) ∧
    (∃ dl, Download.parseArgs (downloadCommand args).childArgv = some dl ∧
      dl.output = some (argText args.modsDir)) ∧
    (∀ (w : Download.World) (report : List Entry),
      (Download.main w (downloadCommand args).childArgv).report = some report →
      (Download.main w (downloadCommand args).childArgv).log.getLast? =
        some (.writeReport (pathJoin (argText args.modsDir) "modrinth_report.json")
          report)) ∧
    (∃ pk, Pack.parseArgs (packCommand args).childArgv = some pk ∧
      pk.modsDir = some (argText args.modsDir) ∧
      pk.report = some (argText args.report)) := by
  refine ⟨?_, ⟨_, download_child_args args, rfl⟩, ?_, ⟨_, pack_child_args args, rfl, rfl⟩⟩
  · intro spawn
    exact (driver_chain spawn argv args hparse)
  · intro w report h
    obtain ⟨dl, mods, output, log, hp, _, hout, _, hmain⟩ :=
      Download.main_report w _ report h
    rw [download_child_args args] at hp
    cases hp
    simp only [Option.some.injEq] at hout
    subst hout
    rw [hmain]
    simp

/-- Witness of `driver_passes_configuration`: with `--report reports/run.json`
the downloader still writes its report into the mods directory. -/
theorem driver_passes_configuration_witness :
    (Download.main Download.persistedWorld
      (downloadCommand { DEFAULTS with report := some "reports/run.json" }).childArgv
      ).log.getLast? =
      some (.writeReport (pathJoin (argText (some "mods")) "modrinth_report.json")
        [Download.demoDownloaded]) :=
  (driver_passes_configuration argvReport { DEFAULTS with report := some "reports/run.json" }
    (by decide)).2.2.1 Download.persistedWorld [Download.demoDownloaded] (by decide)

/-- C13 as stated fails: with the driver command line `--report reports/run.json`
the downloader writes its report to `mods/modrinth_report.json` while the pack
assembler is told to read `reports/run.json`. -/
theorem report_override_misses_downloader :
    parseArgs argvReport = some { DEFAULTS with report := some "reports/run.json" } ∧
    (Download.main Download.persistedWorld
      (downloadCommand { DEFAULTS with report := some "reports/run.json" }).childArgv
      ).log.getLast? =
      some (.writeReport "mods/modrinth_report.json" [Download.demoDownloaded]) ∧
    (Pack.parseArgs
      (packCommand { DEFAULTS with report := some "reports/run.json" }).childArgv).map
        (fun a => a.report) = some (some "reports/run.json") ∧
    ("mods/modrinth_report.json" : String) ≠ "reports/run.json" := by
  decide

/-- What the extractor reads from the command line the driver gives it: its
own defaults with `clean` set, whatever the arguments of the driver. -/
theorem server_child_args :
    ServerMods.parseArgs serverCommand.childArgv =
      some { ServerMods.Args.defaults with clean := true } := by
  decide

end UpdatePack

namespace UpdatePack

/-- More turns than the tokens left do not change the result of `parseArgs`. -/
theorem driver_parseLoop_fuel (argv : List String) :
    ∀ (fuel i : Nat) (args : Args), argv.length ≤ i + fuel →
      ∀ fuel2, argv.length ≤ i + fuel2 →
        parseLoop argv fuel i args = parseLoop argv fuel2 i args := by
  intro fuel
  induction fuel with
  | zero =>
    intro i args h fuel2 _
    have hnone : argv[i]? = none := List.getElem?_eq_none_iff.mpr (by omega)
    cases fuel2 with
    | zero => rfl
    | succ m => simp [parseLoop, hnone]
  | succ n ih =>
    intro i args h fuel2 h2
    cases fuel2 with
    | zero =>
      have hnone : argv[i]? = none := List.getElem?_eq_none_iff.mpr (by omega)
      simp [parseLoop, hnone]
    | succ m =>
      have e1 : ∀ a, parseLoop argv n (i + 1) a = parseLoop argv m (i + 1) a :=
        fun a => ih (i + 1) a (by omega) m (by omega)
      have e2 : ∀ a, parseLoop argv n (i + 2) a = parseLoop argv m (i + 2) a :=
        fun a => ih (i + 2) a (by omega) m (by omega)
      simp only [parseLoop, e1, e2]

end UpdatePack

end NeoforgePack
